/-
  Verification of the xregistry/xrproxy bridge and facades.

  Shallow embedding of:
  * src/bridge/src/services/proxy-service.ts  (ProxyService.rewriteUrls)
  * src/npm/src/server.ts                     (XRegistryServer.setupRoutes)
  * src/pypi/src/server.ts                    (405 catch-all middleware)

  JavaScript strings are modelled as `List Char` where prefix reasoning is
  needed (the bridge rewriter) and as Lean `String` in the facade handlers.
-/
import Mathlib

set_option maxRecDepth 10000

namespace XRProxy

/-- JavaScript strings, modelled as lists of characters. -/
abbrev Str := List Char

/-- JSON values as handled by the bridge proxy. `obj` keeps the key order of
`Object.entries`; `num`/`bool`/`null` are carried through the rewriter
unchanged (final `return data` in `rewriteUrls`). -/
inductive Json where
  | str : Str → Json
  | num : Int → Json
  | bool : Bool → Json
  | null : Json
  | arr : List Json → Json
  | obj : List (Str × Json) → Json

/-- The key whose values the rewriter must never touch. -/
def xidKey : Str := "xid".toList

/-- `data.replace(downstreamUrl, bridgeBaseUrl)` guarded by
`data.startsWith(downstreamUrl)` (proxy-service.ts lines 26-28): since the
match is at index 0, the first occurrence replaced by `String.prototype.replace`
is exactly the prefix. (`$`-escape sequences of JS string replacement are not
modelled; the replacement is a URL origin.) -/
def rewriteStr (d b : Str) (s : Str) : Str :=
  if d.isPrefixOf s then b ++ s.drop d.length else s

mutual
/-- `ProxyService.rewriteUrls(data, downstreamUrl, bridgeBaseUrl, currentKey)`
(proxy-service.ts lines 19-47). Strings under key `xid` are returned as-is;
other strings get the guarded prefix replacement; arrays recurse with no
current key; objects recurse passing each entry's key. -/
def rewriteUrls (d b : Str) (ck : Option Str) : Json → Json
  | .str s =>
      if ck = some xidKey then .str s
      else .str (rewriteStr d b s)
  | .arr xs => .arr (rewriteList d b xs)
  | .obj kvs => .obj (rewriteObj d b kvs)
  | .num n => .num n
  | .bool x => .bool x
  | .null => .null

/-- `data.map(item => this.rewriteUrls(item, downstreamUrl, bridgeBaseUrl))`:
array elements recurse with `currentKey` undefined. -/
def rewriteList (d b : Str) : List Json → List Json
  | [] => []
  | x :: xs => rewriteUrls d b none x :: rewriteList d b xs

/-- `for (const [key, value] of Object.entries(data)) rewritten[key] = this.rewriteUrls(value, ..., key)`. -/
def rewriteObj (d b : Str) : List (Str × Json) → List (Str × Json)
  | [] => []
  | (k, v) :: kvs => (k, rewriteUrls d b (some k) v) :: rewriteObj d b kvs
end

/-- The bridge's top-level call `this.rewriteUrls(data, targetUrl, actualBaseUrl)`
(proxy-service.ts line 164): no current key. -/
def bridgeRewrite (d b : Str) (j : Json) : Json :=
  rewriteUrls d b none j

/-- Path elements addressing a subterm of a JSON value. -/
inductive PathElem where
  | fld : Str → PathElem
  | idx : Nat → PathElem
  deriving DecidableEq, Repr

/-- First-match association lookup (JS object property access; `Object.entries`
yields each key once). -/
def lookupJ (kvs : List (Str × Json)) (k : Str) : Option Json :=
  match kvs with
  | [] => none
  | (k', v) :: rest => if k' = k then some v else lookupJ rest k

/-- The subterm of a JSON value at a path, if it exists. -/
def getPath : Json → List PathElem → Option Json
  | j, [] => some j
  | .obj kvs, .fld k :: p =>
      match lookupJ kvs k with
      | some v => getPath v p
      | none => none
  | .arr xs, .idx n :: p =>
      match xs[n]? with
      | some v => getPath v p
      | none => none
  | _, _ => none

/-- The `currentKey` in force at the end of a path: the final field name, `none`
after an array index, the ambient key for the empty path. -/
def lastCtx (ck : Option Str) : List PathElem → Option Str
  | [] => ck
  | .fld k :: p => lastCtx (some k) p
  | .idx _ :: p => lastCtx none p

theorem lastCtx_append_fld (ck : Option Str) (p : List PathElem) (k : Str) :
    lastCtx ck (p ++ [.fld k]) = some k := by
  induction p generalizing ck with
  | nil => rfl
  | cons e p ih => cases e <;> simpa [lastCtx] using ih _

theorem lastCtx_append_idx (ck : Option Str) (p : List PathElem) (n : Nat) :
    lastCtx ck (p ++ [.idx n]) = none := by
  induction p generalizing ck with
  | nil => rfl
  | cons e p ih => cases e <;> simpa [lastCtx] using ih _

theorem rewriteList_eq_map (d b : Str) (xs : List Json) :
    rewriteList d b xs = xs.map (rewriteUrls d b none) := by
  induction xs with
  | nil => rfl
  | cons x xs ih => simp [rewriteList, ih]

theorem lookupJ_rewriteObj (d b : Str) (kvs : List (Str × Json)) (k : Str) :
    lookupJ (rewriteObj d b kvs) k = (lookupJ kvs k).map (rewriteUrls d b (some k)) := by
  induction kvs with
  | nil => rfl
  | cons kv rest ih =>
      obtain ⟨k', v⟩ := kv
      by_cases h : k' = k
      · subst h; simp [rewriteObj, lookupJ]
      · simp [rewriteObj, lookupJ, h, ih]

/-- Path lookup commutes with the rewriter: the subterm at a path of the
rewritten value is the rewrite of the original subterm, under the key context
ending the path. -/
theorem getPath_rewriteUrls (d b : Str) :
    ∀ (j : Json) (ck : Option Str) (p : List PathElem),
      getPath (rewriteUrls d b ck j) p = (getPath j p).map (rewriteUrls d b (lastCtx ck p))
  | j, ck, [] => by simp [getPath, lastCtx]
  | .obj kvs, ck, .fld k :: p => by
      show _ = Option.map (rewriteUrls d b (lastCtx (some k) p)) _
      cases hv : lookupJ kvs k with
      | none => simp [rewriteUrls, getPath, lookupJ_rewriteObj, hv]
      | some v =>
          simp only [rewriteUrls, getPath, lookupJ_rewriteObj, hv, Option.map_some]
          exact getPath_rewriteUrls d b v (some k) p
  | .arr xs, ck, .idx n :: p => by
      show _ = Option.map (rewriteUrls d b (lastCtx none p)) _
      cases hv : xs[n]? with
      | none => simp [rewriteUrls, getPath, rewriteList_eq_map, List.getElem?_map, hv]
      | some v =>
          simp only [rewriteUrls, getPath, rewriteList_eq_map, List.getElem?_map, hv,
            Option.map_some]
          exact getPath_rewriteUrls d b v none p
  | .obj kvs, ck, .idx n :: p => by simp [rewriteUrls, getPath]
  | .arr xs, ck, .fld k :: p => by simp [rewriteUrls, getPath]
  | .str s, ck, e :: p => by
      simp only [rewriteUrls]
      split <;> cases e <;> simp [getPath]
  | .num m, ck, e :: p => by cases e <;> simp [rewriteUrls, getPath]
  | .bool x, ck, e :: p => by cases e <;> simp [rewriteUrls, getPath]
  | .null, ck, e :: p => by cases e <;> simp [rewriteUrls, getPath]

theorem not_prefix_append_of_not_prefix {d b : Str} (hd : ¬ d <+: b) (hb : ¬ b <+: d)
    (t : Str) : ¬ d <+: b ++ t := by
  intro h
  rcases List.prefix_or_prefix_of_prefix h (List.prefix_append b t) with h' | h'
  · exact hd h'
  · exact hb h'

theorem rewriteStr_idem {d b : Str} (hd : ¬ d <+: b) (hb : ¬ b <+: d) (s : Str) :
    rewriteStr d b (rewriteStr d b s) = rewriteStr d b s := by
  unfold rewriteStr
  by_cases hp : d.isPrefixOf s
  · simp only [hp, if_true]
    have : ¬ d.isPrefixOf (b ++ s.drop d.length) := by
      rw [List.isPrefixOf_iff_prefix]
      exact not_prefix_append_of_not_prefix hd hb _
    simp [this]
  · simp [hp]

mutual
theorem rewriteUrls_idem (d b : Str) (hd : ¬ d <+: b) (hb : ¬ b <+: d) :
    ∀ (ck : Option Str) (j : Json),
      rewriteUrls d b ck (rewriteUrls d b ck j) = rewriteUrls d b ck j
  | ck, .str s => by
      by_cases hck : ck = some xidKey
      · simp [rewriteUrls, hck]
      · simp [rewriteUrls, hck, rewriteStr_idem hd hb]
  | ck, .arr xs => by
      simp [rewriteUrls, rewriteList_idem d b hd hb xs]
  | ck, .obj kvs => by
      simp [rewriteUrls, rewriteObj_idem d b hd hb kvs]
  | _, .num n => rfl
  | _, .bool x => rfl
  | _, .null => rfl

theorem rewriteList_idem (d b : Str) (hd : ¬ d <+: b) (hb : ¬ b <+: d) :
    ∀ (xs : List Json), rewriteList d b (rewriteList d b xs) = rewriteList d b xs
  | [] => rfl
  | x :: xs => by
      simp [rewriteList, rewriteUrls_idem d b hd hb none x, rewriteList_idem d b hd hb xs]

theorem rewriteObj_idem (d b : Str) (hd : ¬ d <+: b) (hb : ¬ b <+: d) :
    ∀ (kvs : List (Str × Json)), rewriteObj d b (rewriteObj d b kvs) = rewriteObj d b kvs
  | [] => rfl
  | (k, v) :: kvs => by
      simp [rewriteObj, rewriteUrls_idem d b hd hb (some k) v, rewriteObj_idem d b hd hb kvs]
end

/-- C2: the recursive URL rewriter never rewrites the value of any field whose
key is `xid`: a string sitting directly under an object key `xid` appears
byte-identical in the output even when it begins with the upstream origin;
every other string (under another key, or an array element) that begins with
the upstream origin has that prefix replaced with the bridge base URL, and is
unchanged otherwise. -/
theorem rewriteUrls_skips_xid_and_rewrites_origin_prefixes (d b : Str) (j : Json) :
    (∀ (p : List PathElem) (s : Str),
        getPath j (p ++ [.fld xidKey]) = some (.str s) →
        getPath (bridgeRewrite d b j) (p ++ [.fld xidKey]) = some (.str s))
    ∧ (∀ (p : List PathElem) (k : Str) (s : Str), k ≠ xidKey →
        getPath j (p ++ [.fld k]) = some (.str s) →
        getPath (bridgeRewrite d b j) (p ++ [.fld k]) =
          some (.str (if d.isPrefixOf s then b ++ s.drop d.length else s)))
    ∧ (∀ (p : List PathElem) (n : Nat) (s : Str),
        getPath j (p ++ [.idx n]) = some (.str s) →
        getPath (bridgeRewrite d b j) (p ++ [.idx n]) =
          some (.str (if d.isPrefixOf s then b ++ s.drop d.length else s))) := by
  refine ⟨fun p s h => ?_, fun p k s hk h => ?_, fun p n s h => ?_⟩
  · rw [bridgeRewrite, getPath_rewriteUrls, h, lastCtx_append_fld]
    simp [rewriteUrls]
  · rw [bridgeRewrite, getPath_rewriteUrls, h, lastCtx_append_fld]
    simp [rewriteUrls, rewriteStr, hk]
  · rw [bridgeRewrite, getPath_rewriteUrls, h, lastCtx_append_idx]
    simp [rewriteUrls, rewriteStr]

/-- Witness for C2 on a concrete body: an `xid` value that structurally looks
like an upstream URL survives unchanged, while the sibling `self` value has the
upstream origin replaced by the bridge base URL. -/
theorem rewriteUrls_skips_xid_witness :
    getPath
        (bridgeRewrite "http://up".toList "https://br".toList
          (Json.obj [("xid".toList, Json.str "http://up/pkgs/a".toList),
                     ("self".toList, Json.str "http://up/pkgs/a".toList)]))
        ([] ++ [.fld xidKey]) = some (.str "http://up/pkgs/a".toList)
    ∧ getPath
        (bridgeRewrite "http://up".toList "https://br".toList
          (Json.obj [("xid".toList, Json.str "http://up/pkgs/a".toList),
                     ("self".toList, Json.str "http://up/pkgs/a".toList)]))
        ([] ++ [.fld "self".toList]) =
          some (.str (if "http://up".toList.isPrefixOf "http://up/pkgs/a".toList then
            "https://br".toList ++ "http://up/pkgs/a".toList.drop "http://up".toList.length
          else "http://up/pkgs/a".toList)) :=
  ⟨(rewriteUrls_skips_xid_and_rewrites_origin_prefixes "http://up".toList "https://br".toList
      _).1 [] _ rfl,
   (rewriteUrls_skips_xid_and_rewrites_origin_prefixes "http://up".toList "https://br".toList
      _).2.1 [] "self".toList _ (by decide) rfl⟩

/-- C9 counterexample: with upstream origin `ab` and bridge base URL `a`, the
bridge base URL does not begin with the upstream origin — the claim's only
hypothesis — yet rewriting the already-rewritten body `"abb"` changes it again:
the first pass yields `"ab"`, the second `"a"`. -/
theorem rewriteUrls_not_idempotent_counterexample :
    ¬ "ab".toList <+: "a".toList
    ∧ bridgeRewrite "ab".toList "a".toList
        (bridgeRewrite "ab".toList "a".toList (Json.str "abb".toList))
        ≠ bridgeRewrite "ab".toList "a".toList (Json.str "abb".toList) := by
  refine ⟨by decide, ?_⟩
  show Json.str "a".toList ≠ Json.str "ab".toList
  intro h
  injection h with h'
  exact absurd h' (by decide)

/-- C9 amended: the rewriter is idempotent provided neither of the two URLs is
a prefix of the other — the bridge base URL does not begin with the upstream
origin AND the upstream origin does not begin with the bridge base URL. -/
theorem rewriteUrls_idempotent (d b : Str) (hd : ¬ d <+: b) (hb : ¬ b <+: d) (j : Json) :
    bridgeRewrite d b (bridgeRewrite d b j) = bridgeRewrite d b j :=
  rewriteUrls_idem d b hd hb none j

/-- Witness for the amended C9 at a realistic origin pair and body. -/
theorem rewriteUrls_idempotent_witness :
    bridgeRewrite "http://up".toList "https://br".toList
        (bridgeRewrite "http://up".toList "https://br".toList
          (Json.obj [("xid".toList, Json.str "/pkgs/a".toList),
                     ("self".toList, Json.str "http://up/pkgs/a".toList)]))
      = bridgeRewrite "http://up".toList "https://br".toList
          (Json.obj [("xid".toList, Json.str "/pkgs/a".toList),
                     ("self".toList, Json.str "http://up/pkgs/a".toList)]) :=
  rewriteUrls_idempotent "http://up".toList "https://br".toList (by decide) (by decide) _

/-! ## npm facade (src/npm/src/server.ts)

JavaScript primitives used by the handlers, modelled for the values the
facade actually passes them (ASCII strings, base-10 integers). -/

namespace Npm

/-- A JS number as produced by `parseInt`: either NaN or an integer. -/
inductive JsInt where
  | nan : JsInt
  | val : Int → JsInt
  deriving DecidableEq, Repr

/-- `limit <= 0` in JS: false for NaN. -/
def JsInt.leZero : JsInt → Bool
  | .nan => false
  | .val n => n ≤ 0

/-- `n >= limit` in JS for a nonnegative count `n`: false when `limit` is NaN. -/
def jsGe (n : Nat) : JsInt → Bool
  | .nan => false
  | .val m => (n : Int) ≥ m

/-- JS `+` when at least the left operand may be NaN. -/
def JsInt.add : JsInt → JsInt → JsInt
  | .val a, .val b => .val (a + b)
  | _, _ => .nan

/-- `Math.min(x, len)` for a possibly-NaN `x`. -/
def jsMin (x : JsInt) (len : Nat) : JsInt :=
  match x with
  | .nan => .nan
  | .val n => .val (min n (len : Int))

/-- `String(x)` for a possibly-NaN number, as interpolated into the next-page URL. -/
def JsInt.render : JsInt → String
  | .nan => "NaN"
  | .val n => toString n

/-- `parseInt(s, 10)`: skip ASCII whitespace, take an optional sign and the
longest run of decimal digits; NaN when no digit follows; trailing characters
are ignored. -/
def parseIntJS (s : String) : JsInt :=
  let cs := s.toList.dropWhile (fun c => c = ' ' ∨ c = '\t' ∨ c = '\n' ∨ c = '\r')
  let signed : Bool × List Char :=
    match cs with
    | '-' :: rest => (true, rest)
    | '+' :: rest => (false, rest)
    | _ => (false, cs)
  let ds := signed.2.takeWhile Char.isDigit
  if ds.isEmpty then .nan
  else
    let n : Nat := ds.foldl (fun a c => a * 10 + (c.toNat - 48)) 0
    .val (if signed.1 then -(n : Int) else (n : Int))

/-- `req.query[k] as string || dflt`: the default applies when the parameter is
absent or the empty string (JS falsiness). -/
def orDefault (q : Option String) (dflt : String) : String :=
  match q with
  | none => dflt
  | some s => if s = "" then dflt else s

/-- JS truthiness of an optional string value. -/
def jsTruthy : Option String → Bool
  | none => false
  | some s => s ≠ ""

/-- JS `a || b` for optional strings (empty string is falsy). -/
def jsOrStr : Option String → Option String → Option String
  | some a, b => if a = "" then b else some a
  | none, b => b

/-- JS `a || dflt` landing on a string default. -/
def jsOrStrD (a : Option String) (dflt : String) : String :=
  match a with
  | some s => if s = "" then dflt else s
  | none => dflt

/-- `Array.prototype.slice` index conversion: NaN becomes 0, a negative index
counts from the end, and the result is clamped to `[0, len]`. -/
def sliceIndex (len : Nat) : JsInt → Nat
  | .nan => 0
  | .val n => if n < 0 then ((len : Int) + n).toNat else min n.toNat len

/-- `l.slice(s, e)` with possibly-NaN bounds. -/
def jsSlice (l : List α) (s e : JsInt) : List α :=
  (l.take (sliceIndex l.length e)).drop (sliceIndex l.length s)

/-- JS object property assignment `o[k] = v`: replaces the value in place when
the key exists, otherwise appends the new key at the end. -/
def objUpsert (o : List (String × α)) (k : String) (v : α) : List (String × α) :=
  match o with
  | [] => [(k, v)]
  | (k', v') :: rest => if k' = k then (k, v) :: rest else (k', v') :: objUpsert rest k v

/-- Stable insertion modelling `Array.prototype.sort` with a comparator `le`
(true when the first argument must not come after the second). -/
def insertSorted (le : α → α → Bool) (a : α) : List α → List α
  | [] => [a]
  | b :: bs => if le a b then a :: b :: bs else b :: insertSorted le a bs

/-- Stable sort modelling `Array.prototype.sort` with a comparator. -/
def sortJs (le : α → α → Bool) : List α → List α
  | [] => []
  | x :: xs => insertSorted le x (sortJs le xs)

/-- ASCII lowercase of a string (`String.prototype.toLowerCase` on ASCII). -/
def lowerStr (s : String) : String := String.mk (s.toList.map Char.toLower)

/-- Splitting worker for a non-empty separator; the fuel starts above the
input length and each step consumes at least one character, so it never runs
out on the real input. -/
def splitAux (sep : List Char) : Nat → List Char → List Char → List (List Char)
  | 0, cs, acc => [acc.reverse ++ cs]
  | _ + 1, [], acc => [acc.reverse]
  | fuel + 1, c :: cs, acc =>
      if sep.isPrefixOf (c :: cs) then
        acc.reverse :: splitAux sep fuel (cs.drop (sep.length - 1)) []
      else splitAux sep fuel cs (c :: acc)

/-- `String.prototype.split(sep)`: empty segments are kept; an empty
separator splits into single characters. -/
def jsSplit (s sep : String) : List String :=
  match sep.data with
  | [] => s.data.map (fun c => String.mk [c])
  | c :: rest => (splitAux (c :: rest) (s.data.length + 1) s.data []).map String.mk

/-- `String.prototype.includes(sub)`. -/
def containsSub : List Char → List Char → Bool
  | sub, [] => sub.isEmpty
  | sub, c :: cs => sub.isPrefixOf (c :: cs) || containsSub sub cs

/-- `String.prototype.trim()` restricted to ASCII whitespace. -/
def jsTrim (s : String) : String :=
  let ws := fun c => c = ' ' ∨ c = '\t' ∨ c = '\n' ∨ c = '\r'
  String.mk (((s.data.dropWhile ws).reverse.dropWhile ws).reverse)

/-- Lexicographic comparison of character lists by code point. -/
def cmpChars : List Char → List Char → Ordering
  | [], [] => .eq
  | [], _ :: _ => .lt
  | _ :: _, [] => .gt
  | a :: as, b :: bs =>
      match compare a.toNat b.toNat with
      | .eq => cmpChars as bs
      | o => o

/-- `a.localeCompare(b, undefined, { sensitivity: 'base' })`, modelled for
ASCII strings as case-insensitive code-point comparison. -/
def cmpBase (a b : String) : Ordering :=
  cmpChars (a.toList.map Char.toLower) (b.toList.map Char.toLower)

/-- A token of the numeric-aware collation: a run of digits read as a number,
or a maximal run of non-digits. -/
inductive NumTok where
  | num : Nat → NumTok
  | txt : List Char → NumTok
  deriving DecidableEq, Repr

/-- Split a character list into digit runs (read as numbers) and lowercased
non-digit runs, single pass with the pending run carried along. -/
def numTokensAux : List Char → Option NumTok → List NumTok
  | [], some t => [t]
  | [], none => []
  | c :: cs, acc =>
      if c.isDigit then
        match acc with
        | some (.num n) => numTokensAux cs (some (.num (n * 10 + (c.toNat - 48))))
        | some (.txt t) => .txt t :: numTokensAux cs (some (.num (c.toNat - 48)))
        | none => numTokensAux cs (some (.num (c.toNat - 48)))
      else
        match acc with
        | some (.num n) => .num n :: numTokensAux cs (some (.txt [c.toLower]))
        | some (.txt t) => numTokensAux cs (some (.txt (t ++ [c.toLower])))
        | none => numTokensAux cs (some (.txt [c.toLower]))

def numTokens (cs : List Char) : List NumTok := numTokensAux cs none

/-- Compare collation tokens: numbers numerically, text case-insensitively;
digits sort before letters. -/
def cmpTok : NumTok → NumTok → Ordering
  | .num a, .num b => compare a b
  | .txt a, .txt b => cmpChars a b
  | .num _, .txt _ => .lt
  | .txt _, .num _ => .gt

/-- Lexicographic comparison of token lists. -/
def cmpTokList : List NumTok → List NumTok → Ordering
  | [], [] => .eq
  | [], _ :: _ => .lt
  | _ :: _, [] => .gt
  | a :: as, b :: bs =>
      match cmpTok a b with
      | .eq => cmpTokList as bs
      | o => o

/-- `a.localeCompare(b, undefined, { numeric: true, sensitivity: 'base' })`,
modelled for ASCII strings: digit runs compare as numbers, other runs compare
case-insensitively. -/
def cmpNumeric (a b : String) : Ordering :=
  cmpTokList (numTokens a.toList) (numTokens b.toList)

/-- Hexadecimal digit (uppercase), as produced by `encodeURIComponent`. -/
def hexDigit (n : Nat) : Char :=
  if n < 10 then Char.ofNat (48 + n) else Char.ofNat (55 + n)

/-- UTF-8 bytes of a character. -/
def utf8Bytes (c : Char) : List Nat :=
  let n := c.toNat
  if n < 0x80 then [n]
  else if n < 0x800 then
    [0xC0 + n / 64, 0x80 + n % 64]
  else if n < 0x10000 then
    [0xE0 + n / 4096, 0x80 + n / 64 % 64, 0x80 + n % 64]
  else
    [0xF0 + n / 262144, 0x80 + n / 4096 % 64, 0x80 + n / 64 % 64, 0x80 + n % 64]

/-- The characters `encodeURIComponent` leaves unescaped:
`A–Z a–z 0–9 - _ . ! ~ * ( )` and the apostrophe (code point 39). -/
def isUnescapedUC (c : Char) : Bool :=
  c.isAlpha ∨ c.isDigit ∨ c.toNat ∈ [45, 95, 46, 33, 126, 42, 39, 40, 41]

/-- `encodeURIComponent(s)`: percent-encode every character outside the
unescaped set as its UTF-8 bytes in uppercase hex. -/
def encodeURIComponent (s : String) : String :=
  String.mk (s.toList.foldr
    (fun c acc =>
      if isUnescapedUC c then c :: acc
      else (utf8Bytes c).foldr
        (fun byte acc2 => '%' :: hexDigit (byte / 16) :: hexDigit (byte % 16) :: acc2) acc)
    [])

/-! ### Filter expressions (server.ts 1032-1082) -/

/-- One parsed filter expression. -/
structure FilterExpr where
  field : String
  op : String
  value : String
  deriving DecidableEq, Repr

/-- `parseFilterExpressions` (server.ts 1032-1051): split on `&`; `!=` is
tried before `=`; both split pieces must be truthy; field and value are
trimmed. -/
def parseFilterExpressions (filter : String) : List FilterExpr :=
  (jsSplit filter "&").filterMap (fun part =>
    if containsSub "!=".toList part.toList then
      match jsSplit part "!=" with
      | f :: v :: _ => if f ≠ "" ∧ v ≠ "" then some ⟨jsTrim f, "!=", jsTrim v⟩ else none
      | _ => none
    else if part.toList.contains '=' then
      match jsSplit part "=" with
      | f :: v :: _ => if f ≠ "" ∧ v ≠ "" then some ⟨jsTrim f, "=", jsTrim v⟩ else none
      | _ => none
    else none)

/-- Backtracking worker matching `(.*s₁)(.*s₂)…(.*sₙ)$` against a character
list: each segment must appear in order, the last anchored at the end. The
fuel starts above `segments + characters` and every step consumes one of the
two, so it never runs out on the real input. -/
def floatMatchAux : Nat → List (List Char) → List Char → Bool
  | 0, _, _ => false
  | _ + 1, [], cs => cs.isEmpty
  | fuel + 1, seg :: rest, [] => seg.isPrefixOf [] && floatMatchAux fuel rest []
  | fuel + 1, seg :: rest, c :: cs =>
      (seg.isPrefixOf (c :: cs) && floatMatchAux fuel rest ((c :: cs).drop seg.length))
      || floatMatchAux fuel (seg :: rest) cs

def floatMatch (segs : List (List Char)) (cs : List Char) : Bool :=
  floatMatchAux (segs.length + cs.length + 1) segs cs

/-- `new RegExp('^' + value.replace(/\*/g, '.*') + '$', 'i').test(v)` for
patterns whose only regex metacharacter is the `*` wildcard: the pattern is
split on `*` and matched anchored, case-insensitively. -/
def wildcardTest (pat v : String) : Bool :=
  match (jsSplit (lowerStr pat) "*").map String.toList with
  | [] => (lowerStr v).toList.isEmpty
  | seg :: rest =>
      let cs := (lowerStr v).toList
      seg.isPrefixOf cs && floatMatch rest (cs.drop seg.length)

/-- `matchesFilter` (server.ts 1056-1082): wildcard values become anchored
case-insensitive patterns, other values compare lowercased; `!=` negates. -/
def matchesFilter (value : String) (f : FilterExpr) : Bool :=
  if f.op = "=" then
    if f.value.toList.contains '*' then wildcardTest f.value value
    else lowerStr value = lowerStr f.value
  else if f.op = "!=" then
    if f.value.toList.contains '*' then ! wildcardTest f.value value
    else lowerStr value ≠ lowerStr f.value
  else false

/-! ### Upstream data model -/

/-- Projection of one entry of the upstream `versions` map (the fields the
facade reads). -/
structure VersionInfo where
  description : Option String
  deprecated : Option String
  deriving DecidableEq, Repr

/-- Projection of the upstream package metadata document. `versions` is `none`
when the upstream document has no `versions` member; key order is the
document's. `timeCreated`/`timeModified` are `time['created']`/`time['modified']`
and `time` holds the per-version publish timestamps. Object-typed passthrough
attributes (`repository`, `author`, `maintainers`, `dist-tags`, `keywords`)
are not projected. -/
structure NpmMetadata where
  distTagsLatest : Option String
  versions : Option (List (String × VersionInfo))
  time : List (String × String)
  timeCreated : Option String
  timeModified : Option String
  description : Option String
  homepage : Option String
  license : Option String
  deriving DecidableEq, Repr

/-- JS object property read on an association list. -/
def lookupS (kvs : List (String × α)) (k : String) : Option α :=
  match kvs with
  | [] => none
  | (k', v) :: rest => if k' = k then some v else lookupS rest k

/-- RFC 9457 problem body; `inst` is the `instance` member. -/
structure ProblemDetails where
  type : String
  title : String
  status : Nat
  detail : Option String
  inst : Option String
  deriving DecidableEq, Repr

/-- `createProblemDetails` (server.ts 44-52). -/
def createProblemDetails (status : Nat) (title : String) (detail : Option String)
    (inst : Option String) : ProblemDetails :=
  { type := "about:blank", title := title, status := status, detail := detail, inst := inst }

/-! ### Entity builders -/

/-- The collection prefix hard-coded in the collection handlers. -/
def packagesPath : String := "/noderegistries/npmjs.org/packages/"

/-- A packages-collection entry. Optional members are attached only under the
truthiness guards of the source. -/
structure PackageEntry where
  name : String
  xid : String
  self : String
  packageid : String
  epoch : Nat
  createdat : String
  modifiedat : String
  description : Option String
  version : Option String
  author : Option String
  license : Option String
  homepage : Option String
  keywords : Option (List String)
  repository : Option String
  deriving DecidableEq, Repr

/-- A filter/search result as read by the packages-collection handler:
`pkg.name`, `pkg.package?.name`, `pkg.date` and the metadata attached by
two-step enrichment (absent members are `none`; absent `keywords` is `[]`). -/
structure FilterPkg where
  name : Option String
  pkgName : Option String
  date : Option String
  description : Option String
  version : Option String
  author : Option String
  license : Option String
  homepage : Option String
  keywords : List String
  repository : Option String
  deriving DecidableEq, Repr

/-- `result.package` of an npm search result. -/
structure SearchPkg where
  name : Option String
  date : Option String
  description : Option String
  version : Option String
  deriving DecidableEq, Repr

/-- One element of `searchResults.objects`. -/
structure SearchObj where
  pkg : Option SearchPkg
  deriving DecidableEq, Repr

/-- `pkg.name || pkg.package?.name` followed by the `if (packageName)`
truthiness guard. -/
def effName (p : FilterPkg) : Option String :=
  match jsOrStr p.name p.pkgName with
  | some s => if s = "" then none else some s
  | none => none

/-- Packages-collection entry built in the filter branch (server.ts 395-411):
`xid` uses the raw name, `self` percent-encodes it; metadata members only when
defined and non-empty. -/
def mkFilterEntry (baseUrl now : String) (normalizeId : String → String)
    (packageName : String) (pkg : FilterPkg) : PackageEntry :=
  { name := packageName
    xid := packagesPath ++ packageName
    self := baseUrl ++ packagesPath ++ encodeURIComponent packageName
    packageid := normalizeId packageName
    epoch := 1
    createdat := jsOrStrD pkg.date now
    modifiedat := jsOrStrD pkg.date now
    description := if jsTruthy pkg.description then pkg.description else none
    version := if jsTruthy pkg.version then pkg.version else none
    author := if jsTruthy pkg.author then pkg.author else none
    license := if jsTruthy pkg.license then pkg.license else none
    homepage := if jsTruthy pkg.homepage then pkg.homepage else none
    keywords := if pkg.keywords.length > 0 then some pkg.keywords else none
    repository := if jsTruthy pkg.repository then pkg.repository else none }

/-- Packages-collection entry built in the sort branch (server.ts 460-471):
no metadata members, timestamps are the current instant. -/
def mkSortEntry (baseUrl now : String) (normalizeId : String → String)
    (packageName : String) : PackageEntry :=
  { name := packageName
    xid := packagesPath ++ packageName
    self := baseUrl ++ packagesPath ++ encodeURIComponent packageName
    packageid := normalizeId packageName
    epoch := 1
    createdat := now
    modifiedat := now
    description := none, version := none, author := none, license := none
    homepage := none, keywords := none, repository := none }

/-- Packages-collection entry built in the upstream-search fallback
(server.ts 483-494). -/
def mkSearchEntry (baseUrl now : String) (normalizeId : String → String)
    (packageName : String) (p : SearchPkg) : PackageEntry :=
  { name := packageName
    xid := packagesPath ++ packageName
    self := baseUrl ++ packagesPath ++ encodeURIComponent packageName
    packageid := normalizeId packageName
    epoch := 1
    createdat := jsOrStrD p.date now
    modifiedat := jsOrStrD p.date now
    description := if jsTruthy p.description then p.description else none
    version := if jsTruthy p.version then p.version else none
    author := none, license := none, homepage := none, keywords := none, repository := none }

/-- Registry root document (server.ts 207-222). -/
structure RegistryRoot where
  specversion : String
  registryid : String
  xid : String
  name : String
  self : String
  description : String
  documentation : String
  epoch : Nat
  createdat : String
  modifiedat : String
  modelurl : String
  capabilitiesurl : String
  noderegistriesurl : String
  noderegistriescount : Nat
  deriving DecidableEq, Repr

def registryRootResponse (baseUrl : String) (esEpoch : Nat)
    (esCreated esModified : String) : RegistryRoot :=
  { specversion := "1.0-rc2", registryid := "npm-wrapper", xid := "/",
    name := "NPM Registry Service", self := baseUrl,
    description := "xRegistry-compliant NPM package registry",
    documentation := "https://docs.npmjs.com/",
    epoch := esEpoch, createdat := esCreated, modifiedat := esModified,
    modelurl := baseUrl ++ "/model", capabilitiesurl := baseUrl ++ "/capabilities",
    noderegistriesurl := baseUrl ++ "/noderegistries", noderegistriescount := 1 }

/-- Group document (server.ts 350-360). -/
structure GroupResponse where
  noderegistryid : String
  name : String
  xid : String
  self : String
  epoch : Nat
  createdat : String
  modifiedat : String
  packagesurl : String
  packagescount : Nat
  deriving DecidableEq, Repr

def groupResponse (baseUrl registryId : String) (esEpoch : Nat)
    (esCreated esModified : String) : GroupResponse :=
  let groupPath := "/noderegistries/" ++ registryId
  { noderegistryid := registryId, name := registryId, xid := groupPath,
    self := baseUrl ++ groupPath, epoch := esEpoch,
    createdat := esCreated, modifiedat := esModified,
    packagesurl := baseUrl ++ groupPath ++ "/packages", packagescount := 2000000 }

/-- Resource view of a package (server.ts 548-573). -/
structure PackageResource where
  name : String
  xid : String
  self : String
  packageid : String
  epoch : Nat
  createdat : String
  modifiedat : String
  versionid : String
  isdefault : Bool
  metaurl : String
  versionsurl : String
  versionscount : Nat
  description : String
  homepage : String
  license : String
  deriving DecidableEq, Repr

def packageResourceResponse (baseUrl registryId packageName : String)
    (normalizeId : String → String) (esEpoch : Nat) (esCreated esModified : String)
    (md : NpmMetadata) : PackageResource :=
  let packagePath := "/noderegistries/" ++ registryId ++ "/packages/" ++ packageName
  let keys := (md.versions.getD []).map Prod.fst
  let defaultVersion := jsOrStrD (jsOrStr md.distTagsLatest keys.head?) "0.0.0"
  { name := packageName
    xid := packagePath
    self := baseUrl ++ packagePath
    packageid := normalizeId packageName
    epoch := esEpoch
    createdat := jsOrStrD md.timeCreated esCreated
    modifiedat := jsOrStrD md.timeModified esModified
    versionid := defaultVersion
    isdefault := true
    metaurl := baseUrl ++ packagePath ++ "/meta"
    versionsurl := baseUrl ++ packagePath ++ "/versions"
    versionscount := keys.length
    description := jsOrStrD md.description ""
    homepage := jsOrStrD md.homepage ""
    license := jsOrStrD md.license "" }

/-- Meta view of a package (server.ts 605-620). -/
structure PackageMeta where
  xid : String
  self : String
  name : String
  packageid : String
  epoch : Nat
  createdat : String
  modifiedat : String
  versionid : String
  isdefault : Bool
  metaurl : String
  versionsurl : String
  versionscount : Nat
  deriving DecidableEq, Repr

def packageMetaResponse (baseUrl registryId packageName : String)
    (normalizeId : String → String) (esEpoch : Nat) (esCreated esModified : String)
    (md : NpmMetadata) : PackageMeta :=
  let packagePath := "/noderegistries/" ++ registryId ++ "/packages/" ++ packageName
  let keys := (md.versions.getD []).map Prod.fst
  let defaultVersion := jsOrStrD (jsOrStr md.distTagsLatest keys.head?) "0.0.0"
  { xid := packagePath
    self := baseUrl ++ packagePath
    name := packageName
    packageid := normalizeId packageName
    epoch := esEpoch
    createdat := jsOrStrD md.timeCreated esCreated
    modifiedat := jsOrStrD md.timeModified esModified
    versionid := defaultVersion
    isdefault := true
    metaurl := baseUrl ++ packagePath ++ "/meta"
    versionsurl := baseUrl ++ packagePath ++ "/versions"
    versionscount := keys.length }

/-- Projection of `npmService.getVersionMetadata` (external to src/): the
fields the version handlers read. -/
structure VersionData where
  versionid : String
  name : String
  createdat : Option String
  modifiedat : Option String
  description : Option String
  deriving DecidableEq, Repr

/-- `Object.keys(packageMetadata?.versions || {})`, `indexOf(version)` and the
ancestor pick (server.ts 656-658 and 707-709): the key immediately before the
requested version in the upstream versions-map order, or the version itself
when it is first or absent. -/
def ancestorOf (allVersions : List String) (version : String) : String :=
  match allVersions.findIdx? (· == version) with
  | some i => if 0 < i then (allVersions[i - 1]?).getD version else version
  | none => version

/-- Version meta view (server.ts 661-671). -/
structure VersionMeta where
  xid : String
  self : String
  versionid : String
  packageid : String
  epoch : Nat
  createdat : String
  modifiedat : String
  isdefault : Bool
  ancestor : String
  deriving DecidableEq, Repr

def versionMetaResponse (baseUrl registryId packageName version : String)
    (normalizeId : String → String) (esEpoch : Nat) (esCreated esModified : String)
    (vd : VersionData) (md? : Option NpmMetadata) : VersionMeta :=
  let versionPath := "/noderegistries/" ++ registryId ++ "/packages/" ++ packageName
      ++ "/versions/" ++ version
  let defaultVersion : Option String := md?.bind (·.distTagsLatest)
  let isDefault := match defaultVersion with
    | some d => version = d
    | none => false
  let allVersions := ((md?.bind (·.versions)).getD []).map Prod.fst
  { xid := versionPath
    self := baseUrl ++ versionPath
    versionid := vd.versionid
    packageid := normalizeId packageName
    epoch := esEpoch
    createdat := jsOrStrD vd.createdat esCreated
    modifiedat := jsOrStrD vd.modifiedat esModified
    isdefault := isDefault
    ancestor := ancestorOf allVersions version }

/-- Full version view (server.ts 712-736); optional npm-specific spreads
(`license`, `homepage`, …, `dist`) are not projected. -/
structure VersionResponse where
  versionid : String
  xid : String
  self : String
  name : String
  packageid : String
  epoch : Nat
  createdat : String
  modifiedat : String
  isdefault : Bool
  ancestor : String
  description : String
  contenttype : String
  deriving DecidableEq, Repr

def versionResponse (baseUrl registryId packageName version : String)
    (normalizeId : String → String) (esEpoch : Nat) (esCreated esModified : String)
    (vd : VersionData) (md? : Option NpmMetadata) : VersionResponse :=
  let versionPath := "/noderegistries/" ++ registryId ++ "/packages/" ++ packageName
      ++ "/versions/" ++ version
  let defaultVersion : Option String := md?.bind (·.distTagsLatest)
  let isDefault := match defaultVersion with
    | some d => version = d
    | none => false
  let allVersions := ((md?.bind (·.versions)).getD []).map Prod.fst
  { versionid := vd.versionid
    xid := versionPath
    self := baseUrl ++ versionPath
    name := vd.name
    packageid := normalizeId packageName
    epoch := esEpoch
    createdat := jsOrStrD vd.createdat esCreated
    modifiedat := jsOrStrD vd.modifiedat esModified
    isdefault := isDefault
    ancestor := ancestorOf allVersions version
    description := jsOrStrD vd.description ""
    contenttype := "application/vnd.npm.install-v1+json" }

/-! ### Versions collection handler (server.ts 746-801) -/

/-- Entry of the versions collection (server.ts 783-793). -/
structure VersionEntry where
  versionid : String
  xid : String
  self : String
  name : String
  epoch : Nat
  createdat : String
  modifiedat : String
  description : String
  deprecated : Option String
  deriving DecidableEq, Repr

def mkVersionColEntry (baseUrl now packageName versionId : String)
    (md : NpmMetadata) (vs : List (String × VersionInfo)) : VersionEntry :=
  let versionData := lookupS vs versionId
  let timeVal := lookupS md.time versionId
  let vdDesc := versionData.bind (·.description)
  let vdDep := versionData.bind (·.deprecated)
  { versionid := versionId
    xid := packagesPath ++ packageName ++ "/versions/" ++ versionId
    self := baseUrl ++ packagesPath ++ encodeURIComponent packageName
      ++ "/versions/" ++ encodeURIComponent versionId
    name := versionId
    epoch := 1
    createdat := jsOrStrD timeVal now
    modifiedat := jsOrStrD timeVal now
    description := if jsTruthy vdDesc then vdDesc.getD "" else jsOrStrD md.description ""
    deprecated := if jsTruthy vdDep then vdDep else none }

inductive VersionsResult where
  | problem : Nat → ProblemDetails → VersionsResult
  | ok : List (String × VersionEntry) → VersionsResult
  deriving DecidableEq, Repr

/-- `const sortParts = sort ? sort.split('=') : []` and the `asc`/`desc` pick
(server.ts 771-772). -/
def sortOrderOf (qSort : Option String) : String :=
  let sortParts := if jsTruthy qSort then jsSplit (qSort.getD "") "=" else []
  if sortParts.length = 2 ∧ sortParts.getD 1 "" ≠ "" then lowerStr (sortParts.getD 1 "")
  else "asc"

/-- The keys actually rendered: `Object.keys(metadata.versions).slice(0, limit)`
then sorted in place with the numeric-aware comparator, descending when the
sort parameter's second `=` piece lowercases to `desc`. -/
def versionsPageKeys (qLimit qSort : Option String)
    (keys : List String) : List String :=
  let limit := parseIntJS (orDefault qLimit "100")
  let versionKeys := jsSlice keys (.val 0) limit
  sortJs (fun a b =>
    if sortOrderOf qSort = "desc" then cmpNumeric a b ≠ .lt else cmpNumeric a b ≠ .gt)
    versionKeys

def versionsCollectionHandler (baseUrl now registryId packageName originalUrl : String)
    (qLimit qSort : Option String) (md? : Option NpmMetadata) : VersionsResult :=
  if registryId ≠ "npmjs.org" then
    .problem 404 (createProblemDetails 404 "Registry not found"
      (some ("Registry '" ++ registryId ++ "' does not exist")) (some originalUrl))
  else
    match md? with
    | none => .problem 404 (createProblemDetails 404 "Package not found"
        (some ("Package '" ++ packageName ++ "' does not exist in registry")) (some originalUrl))
    | some md =>
      match md.versions with
      | none => .problem 404 (createProblemDetails 404 "Package not found"
          (some ("Package '" ++ packageName ++ "' does not exist in registry")) (some originalUrl))
      | some vs =>
          .ok ((versionsPageKeys qLimit qSort (vs.map Prod.fst)).map (fun versionId =>
            (versionId, mkVersionColEntry baseUrl now packageName versionId md vs)))

/-! ### Packages collection handler (server.ts 365-521) -/

structure PackagesResult where
  status : Nat
  problem : Option ProblemDetails
  packages : List (String × PackageEntry)
  link : Option String
  searchCalls : List String
  deriving DecidableEq, Repr

def searchObjToFilterPkg (o : SearchObj) : FilterPkg :=
  { name := none, pkgName := o.pkg.bind (·.name), date := none, description := none,
    version := none, author := none, license := none, homepage := none,
    keywords := [], repository := none }

/-- Fallback of `handlePackageFilter` (server.ts 994-1022): the first `name`
expression whose star-stripped value is non-empty drives one upstream search;
the returned objects are filtered in memory. Also returns the search queries
issued. -/
def fallbackNameSearch (search : String → JsInt → JsInt → List SearchObj) :
    List FilterExpr → JsInt → JsInt → List FilterPkg × List String
  | [], _, _ => ([], [])
  | e :: rest, limit, offset =>
      if e.field = "name" then
        let q := String.mk (e.value.toList.filter (· ≠ '*'))
        if q ≠ "" then
          let objs := search q limit offset
          (((objs.filter (fun o =>
              matchesFilter (jsOrStrD (o.pkg.bind (·.name)) "") e)).map searchObjToFilterPkg),
            [q])
        else fallbackNameSearch search rest limit offset
      else fallbackNameSearch search rest limit offset

/-- `handlePackageFilter` (server.ts 979-1027): with a loaded name cache, the
optimizer result is sliced `[offset, offset + limit)`; otherwise the upstream
search fallback runs. -/
def handlePackageFilter (cacheLen : Nat)
    (optimizedFilter : String → List FilterPkg)
    (search : String → JsInt → JsInt → List SearchObj)
    (filter : String) (limit offset : JsInt) : List FilterPkg × List String :=
  if cacheLen > 0 then
    (jsSlice (optimizedFilter filter) offset (offset.add limit), [])
  else
    fallbackNameSearch search (parseFilterExpressions filter) limit offset

/-- The comparator of the packages sort branch (server.ts 437-451): cache
entries hold only a `name`, so both the `name`/`packageid` fields and the
fallback for any other sort field compare the names; `desc` negates the
base-sensitivity comparison. -/
def packagesSortLe (qSort : Option String) : String → String → Bool :=
  let sortParts := jsSplit (qSort.getD "") "="
  let desc := lowerStr (sortParts.getD 1 "") = "desc"
  fun a b => if desc then cmpBase a b ≠ .lt else cmpBase a b ≠ .gt

/-- The filter branch of the packages handler (server.ts 387-414): entries
built from the filter results, keyed by the coalesced package name. -/
def packagesFilterBranch (baseUrl now : String) (normalizeId : String → String)
    (results : List FilterPkg) : List (String × PackageEntry) :=
  results.foldl (fun acc pkg =>
    match effName pkg with
    | some nm => objUpsert acc nm (mkFilterEntry baseUrl now normalizeId nm pkg)
    | none => acc) []

/-- The sort branch of the packages handler (server.ts 424-473): sort the
whole cache (when the sort parameter has both pieces), slice
`[offset, min(offset + limit, length))`, and key the entries by name. -/
def packagesSortBranch (baseUrl now : String) (normalizeId : String → String)
    (qSort : Option String) (cache : List String)
    (limit offset : JsInt) : List (String × PackageEntry) :=
  let sortParts := jsSplit (qSort.getD "") "="
  let sortedCache :=
    if sortParts.length = 2 ∧ sortParts.getD 0 "" ≠ "" ∧ sortParts.getD 1 "" ≠ "" then
      sortJs (packagesSortLe qSort) cache
    else cache
  let endIdx := jsMin (offset.add limit) sortedCache.length
  let packageSlice := jsSlice sortedCache offset endIdx
  packageSlice.foldl (fun acc nm =>
    objUpsert acc nm (mkSortEntry baseUrl now normalizeId nm)) []

/-- The upstream-search fallback branch (server.ts 475-498). -/
def packagesSearchBranch (baseUrl now : String) (normalizeId : String → String)
    (objs : List SearchObj) : List (String × PackageEntry) :=
  objs.foldl (fun acc o =>
    match o.pkg with
    | some p =>
        match p.name with
        | some nm =>
            if nm ≠ "" then objUpsert acc nm (mkSearchEntry baseUrl now normalizeId nm p)
            else acc
        | none => acc
    | none => acc) []

/-- Branch selection of the packages handler: the filter path, the sort path,
or the upstream-search fallback, paired with the upstream search queries the
branch issues. -/
def packagesBranchResult (baseUrl now : String) (normalizeId : String → String)
    (qLimit qOffset qFilter qSort : Option String)
    (cache : List String)
    (optimizedFilter : String → List FilterPkg)
    (search : String → JsInt → JsInt → List SearchObj) :
    List (String × PackageEntry) × List String :=
  let limit := parseIntJS (orDefault qLimit "20")
  let offset := parseIntJS (orDefault qOffset "0")
  let filterT := jsTruthy qFilter
  if filterT then
    let fr := handlePackageFilter cache.length optimizedFilter search
      (qFilter.getD "") limit offset
    (packagesFilterBranch baseUrl now normalizeId fr.1, fr.2)
  else if jsTruthy qSort ∧ cache.length > 0 then
    (packagesSortBranch baseUrl now normalizeId qSort cache limit offset, [])
  else
    (packagesSearchBranch baseUrl now normalizeId (search "react" limit offset),
      ["react"])

/-- The packages handler after the registry and limit validations passed:
branch selection, pagination headers and the 200 response. -/
def packagesOkResult (baseUrl now : String) (normalizeId : String → String)
    (qLimit qOffset qFilter qSort : Option String)
    (cache : List String)
    (optimizedFilter : String → List FilterPkg)
    (search : String → JsInt → JsInt → List SearchObj) : PackagesResult :=
  let limit := parseIntJS (orDefault qLimit "20")
  let offset := parseIntJS (orDefault qOffset "0")
  let filterT := jsTruthy qFilter
  let pkgsCalls : List (String × PackageEntry) × List String :=
    packagesBranchResult baseUrl now normalizeId qLimit qOffset qFilter qSort cache
      optimizedFilter search
  let pkgs := pkgsCalls.1
  let returnedCount := pkgs.length
  let shouldSetLink := if filterT then returnedCount > 0 else jsGe returnedCount limit
  let link :=
    if shouldSetLink then
      let nextUrl := baseUrl ++ "/noderegistries/npmjs.org/packages?limit="
        ++ limit.render ++ "&offset=" ++ (offset.add limit).render
      if filterT then
        some ("<" ++ nextUrl ++ "&filter=" ++ encodeURIComponent (qFilter.getD "")
          ++ ">; rel=\"next\"")
      else some ("<" ++ nextUrl ++ ">; rel=\"next\"")
    else none
  { status := 200, problem := none, packages := pkgs, link := link,
    searchCalls := pkgsCalls.2 }

/-- The packages-collection handler. `cache` is the loaded name index (the
entries of `packageNamesCache`, which hold only a `name`); `optimizedFilter`
stands for `FilterOptimizer.optimizedFilter` and `search` for
`npmService.searchPackages(q, { size, from }).objects` (both external to
src/). For a sort request the source first awaits `cacheLoadingPromise`, so
`cache` is the fully loaded index. -/
def packagesCollectionHandler (baseUrl now registryId originalUrl : String)
    (normalizeId : String → String)
    (qLimit qOffset qFilter qSort : Option String)
    (cache : List String)
    (optimizedFilter : String → List FilterPkg)
    (search : String → JsInt → JsInt → List SearchObj) : PackagesResult :=
  if registryId ≠ "npmjs.org" then
    { status := 404
      problem := some (createProblemDetails 404 "Registry not found"
        (some ("Registry '" ++ registryId ++ "' does not exist")) (some originalUrl))
      packages := [], link := none, searchCalls := [] }
  else
    let limit := parseIntJS (orDefault qLimit "20")
    if limit.leZero then
      { status := 400
        problem := some (createProblemDetails 400 "Invalid Request"
          (some "The limit parameter must be greater than 0") (some originalUrl))
        packages := [], link := none, searchCalls := [] }
    else
      packagesOkResult baseUrl now normalizeId qLimit qOffset qFilter qSort cache
        optimizedFilter search

/-! ### Helper lemmas about the JS primitives -/

theorem length_insertSorted (le : α → α → Bool) (a : α) (l : List α) :
    (insertSorted le a l).length = l.length + 1 := by
  induction l with
  | nil => rfl
  | cons b bs ih =>
      unfold insertSorted
      split
      · simp
      · simp [ih]

theorem length_sortJs (le : α → α → Bool) (l : List α) :
    (sortJs le l).length = l.length := by
  induction l with
  | nil => rfl
  | cons x xs ih => simp [sortJs, length_insertSorted, ih]

theorem perm_insertSorted (le : α → α → Bool) (a : α) (l : List α) :
    List.Perm (insertSorted le a l) (a :: l) := by
  induction l with
  | nil => rfl
  | cons b bs ih =>
      unfold insertSorted
      split
      · rfl
      · exact ((ih.cons b).trans (List.Perm.swap a b bs)).symm.symm

theorem perm_sortJs (le : α → α → Bool) (l : List α) : List.Perm (sortJs le l) l := by
  induction l with
  | nil => rfl
  | cons x xs ih => exact (perm_insertSorted le x (sortJs le xs)).trans (ih.cons x)

theorem length_objUpsert_le (o : List (String × α)) (k : String) (v : α) :
    (objUpsert o k v).length ≤ o.length + 1 := by
  induction o with
  | nil => simp [objUpsert]
  | cons e rest ih =>
      unfold objUpsert
      split
      · simp
      · simpa using Nat.succ_le_succ ih

/-- `o[k] = v` appends when `k` is fresh. -/
theorem objUpsert_fresh {o : List (String × α)} {k : String} (v : α)
    (h : ∀ e ∈ o, e.1 ≠ k) : objUpsert o k v = o ++ [(k, v)] := by
  induction o with
  | nil => rfl
  | cons e rest ih =>
      have hk : e.1 ≠ k := h e (by simp)
      unfold objUpsert
      simp only [hk, if_false]
      rw [ih (fun e' he' => h e' (by simp [he']))]
      simp

theorem sliceIndex_val_nonneg (len : Nat) {n : Int} (hn : 0 ≤ n) :
    sliceIndex len (.val n) = min n.toNat len := by
  simp [sliceIndex, Int.not_lt.mpr hn]

theorem length_jsSlice_le (l : List α) (s : JsInt) {L : Int} (hL : 0 ≤ L) :
    (jsSlice l s (s.add (.val L))).length ≤ L.toNat := by
  cases s with
  | nan => simp [jsSlice, JsInt.add, sliceIndex]
  | val o =>
      simp only [jsSlice, JsInt.add, List.length_drop, List.length_take, sliceIndex]
      by_cases ho : o < 0 <;> by_cases hol : o + L < 0 <;> simp [ho, hol] <;> omega

theorem length_jsSlice_min_le (l : List α) (s : JsInt) {L : Int} (hL : 0 ≤ L) (len : Nat) :
    (jsSlice l s (jsMin (s.add (.val L)) len)).length ≤ L.toNat := by
  cases s with
  | nan => simp [jsSlice, JsInt.add, jsMin, sliceIndex]
  | val o =>
      simp only [jsSlice, JsInt.add, jsMin, List.length_drop, List.length_take, sliceIndex]
      by_cases ho : o < 0 <;> by_cases hol : min (o + L) (len : Int) < 0 <;>
        simp [ho, hol] <;> omega

theorem jsSlice_zero_val (l : List α) {L : Int} (hL : 0 ≤ L) :
    jsSlice l (.val 0) (.val L) = l.take L.toNat := by
  have h0 : sliceIndex l.length (.val 0) = 0 := by simp [sliceIndex]
  rw [jsSlice, h0, sliceIndex_val_nonneg _ hL, List.drop_zero]
  rcases Nat.le_total L.toNat l.length with h | h
  · rw [Nat.min_eq_left h]
  · rw [Nat.min_eq_right h, List.take_of_length_le h, List.take_of_length_le (by omega)]

theorem length_foldl_le (step : List (String × β) → α → List (String × β))
    (h : ∀ a x, (step a x).length ≤ a.length + 1) (l : List α) :
    ∀ acc : List (String × β), (l.foldl step acc).length ≤ acc.length + l.length := by
  induction l with
  | nil => simp
  | cons x xs ih =>
      intro acc
      calc (List.foldl step (step acc x) xs).length
          ≤ (step acc x).length + xs.length := ih (step acc x)
        _ ≤ acc.length + 1 + xs.length := by have := h acc x; omega
        _ = acc.length + (x :: xs).length := by simp; omega

/-- Folding `o[nm] = f nm` over distinct fresh names appends the entries in
order. -/
theorem foldl_objUpsert_map (f : String → β) (l : List String) :
    ∀ (acc : List (String × β)), l.Nodup → (∀ k ∈ l, ∀ e ∈ acc, e.1 ≠ k) →
      l.foldl (fun a nm => objUpsert a nm (f nm)) acc
        = acc ++ l.map (fun nm => (nm, f nm)) := by
  induction l with
  | nil => simp
  | cons x xs ih =>
      intro acc hnd hfresh
      have hx : ∀ e ∈ acc, e.1 ≠ x := hfresh x (by simp)
      simp only [List.foldl_cons]
      rw [objUpsert_fresh (f x) hx]
      rw [ih (acc ++ [(x, f x)]) hnd.of_cons]
      · simp
      · intro k hk e he
        rcases List.mem_append.1 he with he | he
        · exact hfresh k (by simp [hk]) e he
        · simp only [List.mem_singleton] at he
          subst he
          have : x ∉ xs := (List.nodup_cons.1 hnd).1
          simp only [ne_eq]
          intro hxk
          exact this (hxk ▸ hk)

theorem str_append_cancel_left {a b c : String} (h : a ++ b = a ++ c) : b = c := by
  apply String.ext
  have h2 : a.data ++ b.data = a.data ++ c.data := by
    have := congrArg String.data h
    simpa using this
  exact List.append_cancel_left h2

end Npm

/-! ## Claim theorems about the npm facade -/

open Npm in
/-- C1 counterexample: in the packages collection (server.ts 394-403) the
entry for the scoped name `@scope/pkg` has
`self = baseUrl + "/noderegistries/npmjs.org/packages/%40scope%2Fpkg"` while
`xid = "/noderegistries/npmjs.org/packages/@scope/pkg"`, so `self` is not the
bridge base URL concatenated with `xid`. -/
theorem packages_entry_self_ne_base_xid_for_scoped_name :
    (mkFilterEntry "http://bridge" "2024-01-01T00:00:00Z" id "@scope/pkg"
        ⟨none, none, none, none, none, none, none, none, [], none⟩).self
      ≠ "http://bridge"
        ++ (mkFilterEntry "http://bridge" "2024-01-01T00:00:00Z" id "@scope/pkg"
            ⟨none, none, none, none, none, none, none, none, [], none⟩).xid := by
  decide

open Npm in
/-- C1 amended: `self = bridgeBaseUrl ++ xid` holds for the group, resource,
resource-meta, version and version-meta responses, whose paths are built from
the raw path parameters. For packages-collection and versions-collection
entries, `self` percent-encodes the name (and version id) while `xid` keeps
the raw form, so the equality holds exactly when `encodeURIComponent` leaves
the name unchanged. For the registry root, `self` is the bridge base URL
itself while `xid` is `"/"`. -/
theorem self_eq_base_append_xid_amended
    (baseUrl now registryId packageName version : String)
    (normalizeId : String → String) (esEpoch : Nat) (esCreated esModified : String)
    (md : NpmMetadata) (md? : Option NpmMetadata) (vd : VersionData)
    (pkg : FilterPkg) (vs : List (String × VersionInfo)) :
    ((groupResponse baseUrl registryId esEpoch esCreated esModified).self
        = baseUrl ++ (groupResponse baseUrl registryId esEpoch esCreated esModified).xid)
    ∧ ((packageResourceResponse baseUrl registryId packageName normalizeId esEpoch esCreated
          esModified md).self
        = baseUrl ++ (packageResourceResponse baseUrl registryId packageName normalizeId esEpoch
          esCreated esModified md).xid)
    ∧ ((packageMetaResponse baseUrl registryId packageName normalizeId esEpoch esCreated
          esModified md).self
        = baseUrl ++ (packageMetaResponse baseUrl registryId packageName normalizeId esEpoch
          esCreated esModified md).xid)
    ∧ ((versionMetaResponse baseUrl registryId packageName version normalizeId esEpoch esCreated
          esModified vd md?).self
        = baseUrl ++ (versionMetaResponse baseUrl registryId packageName version normalizeId
          esEpoch esCreated esModified vd md?).xid)
    ∧ ((versionResponse baseUrl registryId packageName version normalizeId esEpoch esCreated
          esModified vd md?).self
        = baseUrl ++ (versionResponse baseUrl registryId packageName version normalizeId esEpoch
          esCreated esModified vd md?).xid)
    ∧ ((mkFilterEntry baseUrl now normalizeId packageName pkg).xid
        = packagesPath ++ packageName)
    ∧ ((mkFilterEntry baseUrl now normalizeId packageName pkg).self
        = baseUrl ++ packagesPath ++ encodeURIComponent packageName)
    ∧ (((mkFilterEntry baseUrl now normalizeId packageName pkg).self
        = baseUrl ++ (mkFilterEntry baseUrl now normalizeId packageName pkg).xid)
        ↔ encodeURIComponent packageName = packageName)
    ∧ ((mkVersionColEntry baseUrl now packageName version md vs).xid
        = packagesPath ++ packageName ++ "/versions/" ++ version)
    ∧ ((mkVersionColEntry baseUrl now packageName version md vs).self
        = baseUrl ++ packagesPath ++ encodeURIComponent packageName ++ "/versions/"
          ++ encodeURIComponent version)
    ∧ ((registryRootResponse baseUrl esEpoch esCreated esModified).self = baseUrl)
    ∧ ((registryRootResponse baseUrl esEpoch esCreated esModified).xid = "/") := by
  refine ⟨rfl, rfl, rfl, rfl, rfl, rfl, rfl, ?_, rfl, rfl, rfl, rfl⟩
  constructor
  · intro h
    simp only [mkFilterEntry, packagesPath] at h
    rw [← String.append_assoc] at h
    exact str_append_cancel_left h
  · intro h
    simp only [mkFilterEntry, packagesPath, h]
    rw [← String.append_assoc]

open Npm in
/-- Input for the ancestor claim: the upstream versions map lists `2.0.0`
before `1.0.0` while the publish timestamps make `1.0.0` the older version. -/
def ancestorCexMd : NpmMetadata :=
  { distTagsLatest := some "2.0.0"
    versions := some [("2.0.0", ⟨none, none⟩), ("1.0.0", ⟨none, none⟩)]
    time := [("1.0.0", "2020-01-01T00:00:00Z"), ("2.0.0", "2021-01-01T00:00:00Z")]
    timeCreated := none, timeModified := none
    description := none, homepage := none, license := none }

open Npm in
/-- Modelled from the spec: the `ancestor` the spec prescribes — the immediate
predecessor of the version in the chronologically sorted version list (sorted
by the per-version publish timestamps of `time`; ISO-8601 UTC timestamps
compare chronologically as strings), the version itself for the oldest. -/
def chronologicalAncestor (md : NpmMetadata) (version : String) : String :=
  let keys := (md.versions.getD []).map Prod.fst
  let timeOf := fun v => (lookupS md.time v).getD ""
  let ordered := sortJs (fun a b => cmpChars (timeOf a).toList (timeOf b).toList ≠ .gt) keys
  ancestorOf ordered version

open Npm in
/-- C3: on `ancestorCexMd`, the facade reports `ancestor = "2.0.0"` for
version `1.0.0` — the previous key in upstream map order — although `1.0.0`
is chronologically the oldest version, whose ancestor must be itself. The
source's own comment says "previous version in time" but the implementation
indexes `Object.keys` order and never reads `time`. -/
theorem ancestor_uses_key_order_not_time_order :
    (versionMetaResponse "http://bridge" "npmjs.org" "pkg" "1.0.0" id 1
        "2020-01-01T00:00:00Z" "2021-01-01T00:00:00Z"
        ⟨"1.0.0", "pkg", none, none, none⟩ (some ancestorCexMd)).ancestor = "2.0.0"
    ∧ (versionResponse "http://bridge" "npmjs.org" "pkg" "1.0.0" id 1
        "2020-01-01T00:00:00Z" "2021-01-01T00:00:00Z"
        ⟨"1.0.0", "pkg", none, none, none⟩ (some ancestorCexMd)).ancestor = "2.0.0"
    ∧ chronologicalAncestor ancestorCexMd "1.0.0" = "1.0.0"
    ∧ ("2.0.0" : String) ≠ "1.0.0" := by
  refine ⟨rfl, rfl, by decide, by decide⟩

namespace Npm

/-- The length of a versions page: `min limit total`. -/
theorem versionsPageKeys_length (qLimit qSort : Option String) {L : Int} (hL : 0 ≤ L)
    (hparse : parseIntJS (orDefault qLimit "100") = .val L) (keys : List String) :
    (versionsPageKeys qLimit qSort keys).length = min L.toNat keys.length := by
  simp only [versionsPageKeys, hparse, length_sortJs, jsSlice_zero_val _ hL,
    List.length_take]

end Npm

open Npm in
/-- 101 distinct version ids in upstream key order. -/
def bigVersions : List (String × Npm.VersionInfo) :=
  (List.range 101).map (fun i => ("v" ++ toString i, ⟨none, none⟩))

open Npm in
def bigMd : NpmMetadata :=
  { distTagsLatest := none, versions := some bigVersions, time := [],
    timeCreated := none, timeModified := none,
    description := none, homepage := none, license := none }

open Npm in
/-- C4 counterexample: a package with 101 upstream versions reports
`versionscount = 101` on the resource, but the `.../versions` endpoint with no
query parameters returns only 100 entries — `Object.keys(...).slice(0, limit)`
caps the map at the default `limit` of 100 before rendering. -/
theorem versionscount_ne_versions_endpoint_size :
    (packageResourceResponse "http://bridge" "npmjs.org" "big" id 1 "c" "m"
        bigMd).versionscount = 101
    ∧ (match versionsCollectionHandler "http://bridge" "now" "npmjs.org" "big" "/u"
          none none (some bigMd) with
        | .ok entries => entries.length
        | .problem _ _ => 0) = 100
    ∧ (101 : Nat) ≠ 100 := by
  refine ⟨?_, ?_, by decide⟩
  · show ((bigMd.versions.getD []).map Prod.fst).length = 101
    simp [bigMd, bigVersions]
  · have hres : versionsCollectionHandler "http://bridge" "now" "npmjs.org" "big" "/u"
        none none (some bigMd)
        = .ok ((versionsPageKeys none none (bigVersions.map Prod.fst)).map
            (fun versionId =>
              (versionId, mkVersionColEntry "http://bridge" "now" "big" versionId bigMd
                bigVersions))) := by
      simp [versionsCollectionHandler, bigMd]
    rw [hres]
    simp only [List.length_map]
    rw [versionsPageKeys_length none none (L := 100) (by omega) rfl]
    simp [bigVersions]

open Npm in
/-- C4 amended: `versionscount` on the resource and meta views equals the
total number of upstream versions, while the `.../versions` endpoint returns
`min limit total` entries (the `limit` query parameter defaults to 100); the
claimed equality therefore holds exactly when the version count does not
exceed the endpoint's limit. -/
theorem versionscount_eq_total_and_endpoint_returns_min
    (baseUrl now packageName originalUrl : String)
    (normalizeId : String → String) (esEpoch : Nat) (esCreated esModified : String)
    (qLimit qSort : Option String) {L : Int} (hL : 0 ≤ L)
    (hparse : parseIntJS (orDefault qLimit "100") = .val L)
    (md : NpmMetadata) (vs : List (String × VersionInfo)) (hvs : md.versions = some vs) :
    (packageResourceResponse baseUrl "npmjs.org" packageName normalizeId esEpoch esCreated
        esModified md).versionscount = vs.length
    ∧ (packageMetaResponse baseUrl "npmjs.org" packageName normalizeId esEpoch esCreated
        esModified md).versionscount = vs.length
    ∧ (match versionsCollectionHandler baseUrl now "npmjs.org" packageName originalUrl
          qLimit qSort (some md) with
        | .ok entries => entries.length
        | .problem _ _ => 0) = min L.toNat vs.length := by
  refine ⟨?_, ?_, ?_⟩
  · show ((md.versions.getD []).map Prod.fst).length = vs.length
    simp [hvs]
  · show ((md.versions.getD []).map Prod.fst).length = vs.length
    simp [hvs]
  · have hres : versionsCollectionHandler baseUrl now "npmjs.org" packageName originalUrl
        qLimit qSort (some md)
        = .ok ((versionsPageKeys qLimit qSort (vs.map Prod.fst)).map
            (fun versionId =>
              (versionId, mkVersionColEntry baseUrl now packageName versionId md vs))) := by
      simp [versionsCollectionHandler, hvs]
    rw [hres]
    simp only [List.length_map]
    rw [versionsPageKeys_length qLimit qSort hL hparse]
    simp

open Npm in
/-- Witness for the amended C4: a two-version package under the default limit
of 100 — both counts equal 2. -/
theorem versionscount_eq_total_witness :
    (packageResourceResponse "http://bridge" "npmjs.org" "small" id 1 "c" "m"
        ⟨none, some [("1.0.0", ⟨none, none⟩), ("2.0.0", ⟨none, none⟩)], [], none, none,
          none, none, none⟩).versionscount
      = [("1.0.0", (⟨none, none⟩ : VersionInfo)), ("2.0.0", ⟨none, none⟩)].length
    ∧ (packageMetaResponse "http://bridge" "npmjs.org" "small" id 1 "c" "m"
        ⟨none, some [("1.0.0", ⟨none, none⟩), ("2.0.0", ⟨none, none⟩)], [], none, none,
          none, none, none⟩).versionscount
      = [("1.0.0", (⟨none, none⟩ : VersionInfo)), ("2.0.0", ⟨none, none⟩)].length
    ∧ (match versionsCollectionHandler "http://bridge" "now" "npmjs.org" "small" "/u"
          none none (some ⟨none, some [("1.0.0", ⟨none, none⟩), ("2.0.0", ⟨none, none⟩)],
            [], none, none, none, none, none⟩) with
        | .ok entries => entries.length
        | .problem _ _ => 0)
      = min (Int.toNat 100) [("1.0.0", (⟨none, none⟩ : VersionInfo)),
          ("2.0.0", ⟨none, none⟩)].length :=
  versionscount_eq_total_and_endpoint_returns_min "http://bridge" "now" "small" "/u" id 1
    "c" "m" none none (L := 100) (by omega) rfl
    ⟨none, some [("1.0.0", ⟨none, none⟩), ("2.0.0", ⟨none, none⟩)], [], none, none,
      none, none, none⟩
    [("1.0.0", ⟨none, none⟩), ("2.0.0", ⟨none, none⟩)] rfl

namespace Npm

theorem take_min_length (l : List α) (a : Nat) : l.take (min a l.length) = l.take a := by
  rcases Nat.le_total a l.length with h | h
  · rw [Nat.min_eq_left h]
  · rw [Nat.min_eq_right h, List.take_length, List.take_of_length_le h]

theorem drop_take_eq (l : List α) (o L : Nat) :
    (l.take (min (min (o + L) l.length) l.length)).drop (min o l.length)
      = (l.drop o).take L := by
  rcases Nat.le_total o l.length with h | h
  · rw [Nat.min_eq_left h, Nat.min_eq_left (Nat.min_le_right _ _), take_min_length,
      List.take_drop]
  · rw [Nat.min_eq_right h,
      List.drop_eq_nil_of_le (by simp [List.length_take]),
      List.drop_eq_nil_of_le h, List.take_nil]

/-- `sorted.slice(offset, Math.min(offset + limit, sorted.length))` is exactly
the fully-sorted list with `offset` entries dropped and `limit` kept. -/
theorem jsSlice_drop_take (l : List α) {o L : Int} (ho : 0 ≤ o) (hL : 0 ≤ L) :
    jsSlice l (.val o) (jsMin ((JsInt.val o).add (.val L)) l.length)
      = (l.drop o.toNat).take L.toNat := by
  obtain ⟨oN, rfl⟩ := Int.eq_ofNat_of_zero_le ho
  obtain ⟨LN, rfl⟩ := Int.eq_ofNat_of_zero_le hL
  have h1 : sliceIndex l.length (.val (oN : Int)) = min oN l.length := by
    simp only [sliceIndex]
    rw [if_neg (by omega)]
    simp
  have h2 : sliceIndex l.length (.val (min ((oN : Int) + (LN : Int)) (l.length : Int)))
      = min (min (oN + LN) l.length) l.length := by
    simp only [sliceIndex]
    rw [if_neg (by omega)]
    congr 1
    omega
  simp only [jsSlice, JsInt.add, jsMin, h1, h2, Int.toNat_natCast]
  exact drop_take_eq l oN LN

/-- Modelled from the spec: sorting applied to the entire candidate set
before the limit slice on the versions endpoint — the page would be the
first `limit` keys of the fully sorted key list. -/
def specVersionsSortedThenSliced (qLimit qSort : Option String)
    (keys : List String) : List String :=
  let limit := parseIntJS (orDefault qLimit "100")
  jsSlice
    (sortJs (fun a b =>
      if sortOrderOf qSort = "desc" then cmpNumeric a b ≠ .lt else cmpNumeric a b ≠ .gt)
      keys)
    (.val 0) limit

end Npm

open Npm in
/-- C5 counterexample: on the versions endpoint with `limit=1&sort=name=asc`
and upstream key order `["2.0.0", "1.0.0"]`, the facade returns the page
`["2.0.0"]` — it slices the unsorted key list to `limit` first and sorts only
the slice — while sorting the entire candidate set before slicing would
return `["1.0.0"]`. -/
theorem versions_page_not_slice_of_sorted :
    (match versionsCollectionHandler "http://bridge" "now" "npmjs.org" "pkg" "/u"
        (some "1") (some "name=asc")
        (some ⟨none, some [("2.0.0", ⟨none, none⟩), ("1.0.0", ⟨none, none⟩)], [],
          none, none, none, none, none⟩) with
      | .ok entries => entries.map Prod.fst
      | .problem _ _ => []) = ["2.0.0"]
    ∧ specVersionsSortedThenSliced (some "1") (some "name=asc") ["2.0.0", "1.0.0"]
        = ["1.0.0"]
    ∧ (["2.0.0"] : List String) ≠ ["1.0.0"] := by
  refine ⟨rfl, rfl, by decide⟩

namespace Npm

/-- With a well-formed sort parameter and a deduplicated cache, the sort
branch renders exactly the `offset`/`limit` slice of the fully sorted cache. -/
theorem packagesSortBranch_eq (baseUrl now : String) (normalizeId : String → String)
    (qSort : Option String) (cache : List String) {L O : Int}
    (hOnn : 0 ≤ O) (hLnn : 0 ≤ L)
    (hParts : (jsSplit (qSort.getD "") "=").length = 2
      ∧ (jsSplit (qSort.getD "") "=").getD 0 "" ≠ ""
      ∧ (jsSplit (qSort.getD "") "=").getD 1 "" ≠ "")
    (hnd : cache.Nodup) :
    packagesSortBranch baseUrl now normalizeId qSort cache (.val L) (.val O)
      = (((sortJs (packagesSortLe qSort) cache).drop O.toNat).take L.toNat).map
          (fun nm => (nm, mkSortEntry baseUrl now normalizeId nm)) := by
  have hsortednd : (sortJs (packagesSortLe qSort) cache).Nodup :=
    ((perm_sortJs (packagesSortLe qSort) cache).nodup_iff).mpr hnd
  have hslicend :
      ((((sortJs (packagesSortLe qSort) cache).drop O.toNat).take L.toNat)).Nodup :=
    ((List.take_sublist _ _).trans (List.drop_sublist _ _)).nodup hsortednd
  simp only [packagesSortBranch, if_pos hParts]
  rw [jsSlice_drop_take _ hOnn hLnn]
  rw [foldl_objUpsert_map (fun nm => mkSortEntry baseUrl now normalizeId nm) _ []
    hslicend (by simp)]
  simp

/-- In the sort conditions, the branch selection picks the sort branch and
issues no upstream search. -/
theorem packagesBranchResult_sort (baseUrl now : String)
    (normalizeId : String → String) (qLimit qOffset qSort : Option String)
    (cache : List String) (optimizedFilter : String → List FilterPkg)
    (search : String → JsInt → JsInt → List SearchObj) {L O : Int}
    (hL : parseIntJS (orDefault qLimit "20") = .val L)
    (hO : parseIntJS (orDefault qOffset "0") = .val O)
    (hSort : jsTruthy qSort = true) (hc : cache ≠ []) :
    packagesBranchResult baseUrl now normalizeId qLimit qOffset none qSort cache
        optimizedFilter search
      = (packagesSortBranch baseUrl now normalizeId qSort cache (.val L) (.val O), []) := by
  have hlen : 0 < cache.length := List.length_pos.mpr hc
  have hTnone : jsTruthy (none : Option String) = false := rfl
  simp only [packagesBranchResult, hL, hO, hTnone, hSort]
  simp [hlen]

/-- The packages handler in the sort branch: valid registry, positive limit,
no filter, truthy sort, non-empty cache. -/
theorem packagesCollectionHandler_sort (baseUrl now originalUrl : String)
    (normalizeId : String → String) (qLimit qOffset qSort : Option String)
    (cache : List String) (optimizedFilter : String → List FilterPkg)
    (search : String → JsInt → JsInt → List SearchObj) {L O : Int}
    (hL : parseIntJS (orDefault qLimit "20") = .val L) (hLpos : 0 < L)
    (hO : parseIntJS (orDefault qOffset "0") = .val O)
    (hSort : jsTruthy qSort = true) (hc : cache ≠ []) :
    packagesCollectionHandler baseUrl now "npmjs.org" originalUrl normalizeId qLimit
        qOffset none qSort cache optimizedFilter search
      = { status := 200, problem := none
          packages := packagesSortBranch baseUrl now normalizeId qSort cache (.val L) (.val O)
          link := if jsGe (packagesSortBranch baseUrl now normalizeId qSort cache
              (.val L) (.val O)).length (.val L) then
              some ("<" ++ (baseUrl ++ "/noderegistries/npmjs.org/packages?limit="
                ++ (JsInt.val L).render ++ "&offset=" ++ ((JsInt.val O).add (.val L)).render)
                ++ ">; rel=\"next\"")
            else none
          searchCalls := [] } := by
  have hnotle : ¬ (L ≤ 0) := by omega
  have hTnone : jsTruthy (none : Option String) = false := rfl
  have hbr := packagesBranchResult_sort baseUrl now normalizeId qLimit qOffset qSort
    cache optimizedFilter search hL hO hSort hc
  simp only [packagesCollectionHandler, packagesOkResult, hL, hO, JsInt.leZero, hTnone,
    hbr]
  simp [hnotle]

end Npm

open Npm in
/-- C5 amended: on the packages collection, a well-formed sort request (with
the index loaded — the handler awaits the load — and a deduplicated index)
sorts the entire candidate set and then slices, so the page is the contiguous
slice `sorted.drop offset |>.take limit` of the fully sorted set; on the
versions collection, the first `limit` keys in upstream map order are selected
before sorting, so the page is the sorted `limit`-prefix rather than a slice
of the fully sorted set. -/
theorem sort_before_slice_amended
    (baseUrl now originalUrl : String) (normalizeId : String → String)
    (qLimit qOffset qSort qLimitV qSortV : Option String)
    (cache : List String) (optimizedFilter : String → List FilterPkg)
    (search : String → JsInt → JsInt → List SearchObj)
    {L O V : Int}
    (hL : parseIntJS (orDefault qLimit "20") = .val L) (hLpos : 0 < L)
    (hO : parseIntJS (orDefault qOffset "0") = .val O) (hOnn : 0 ≤ O)
    (hSort : jsTruthy qSort = true)
    (hParts : (jsSplit (qSort.getD "") "=").length = 2
      ∧ (jsSplit (qSort.getD "") "=").getD 0 "" ≠ ""
      ∧ (jsSplit (qSort.getD "") "=").getD 1 "" ≠ "")
    (hc : cache ≠ []) (hnd : cache.Nodup)
    (hV : 0 ≤ V) (hparseV : parseIntJS (orDefault qLimitV "100") = .val V) :
    ((packagesCollectionHandler baseUrl now "npmjs.org" originalUrl normalizeId qLimit
        qOffset none qSort cache optimizedFilter search).packages.map Prod.fst
      = ((sortJs (packagesSortLe qSort) cache).drop O.toNat).take L.toNat)
    ∧ (∀ keys : List String, versionsPageKeys qLimitV qSortV keys
        = sortJs (fun a b =>
            if sortOrderOf qSortV = "desc" then cmpNumeric a b ≠ .lt
            else cmpNumeric a b ≠ .gt)
          (keys.take V.toNat)) := by
  constructor
  · rw [packagesCollectionHandler_sort baseUrl now originalUrl normalizeId qLimit qOffset
      qSort cache optimizedFilter search hL hLpos hO hSort hc]
    show (packagesSortBranch baseUrl now normalizeId qSort cache (.val L) (.val O)).map
        Prod.fst = _
    rw [packagesSortBranch_eq baseUrl now normalizeId qSort cache hOnn (by omega)
      hParts hnd]
    simp only [List.map_map]
    have hcomp : (Prod.fst ∘ fun nm : String =>
        (nm, mkSortEntry baseUrl now normalizeId nm)) = id := rfl
    rw [hcomp, List.map_id]
  · intro keys
    simp only [versionsPageKeys, hparseV, jsSlice_zero_val _ hV]

open Npm in
/-- Witness for the amended C5 at a concrete sorted request. -/
theorem sort_before_slice_witness :
    ((packagesCollectionHandler "http://bridge" "now" "npmjs.org" "/u" id (some "1")
        (some "0") none (some "name=asc") ["b", "a"] (fun _ => []) (fun _ _ _ => [])
        ).packages.map Prod.fst
      = ((sortJs (packagesSortLe (some "name=asc")) ["b", "a"]).drop
          (Int.toNat 0)).take (Int.toNat 1))
    ∧ (∀ keys : List String, versionsPageKeys none none keys
        = sortJs (fun a b =>
            if sortOrderOf none = "desc" then cmpNumeric a b ≠ .lt
            else cmpNumeric a b ≠ .gt)
          (keys.take (Int.toNat 100))) :=
  sort_before_slice_amended "http://bridge" "now" "/u" id (some "1") (some "0")
    (some "name=asc") none none ["b", "a"] (fun _ => []) (fun _ _ _ => [])
    (L := 1) (O := 0) (V := 100)
    rfl (by omega) rfl (by omega) rfl (by decide) (by decide) (by decide)
    (by omega) rfl

namespace Npm

/-- A request to the valid registry whose limit fails the `limit <= 0` guard
gets the 400 problem response, untouched state, and no upstream work. -/
theorem packagesCollectionHandler_badRequest (baseUrl now originalUrl : String)
    (normalizeId : String → String) (qLimit qOffset qFilter qSort : Option String)
    (cache : List String) (optimizedFilter : String → List FilterPkg)
    (search : String → JsInt → JsInt → List SearchObj)
    (hle : (parseIntJS (orDefault qLimit "20")).leZero = true) :
    packagesCollectionHandler baseUrl now "npmjs.org" originalUrl normalizeId qLimit
        qOffset qFilter qSort cache optimizedFilter search
      = { status := 400
          problem := some (createProblemDetails 400 "Invalid Request"
            (some "The limit parameter must be greater than 0") (some originalUrl))
          packages := [], link := none, searchCalls := [] } := by
  simp only [packagesCollectionHandler]
  rw [if_neg (by simp), if_pos hle]

/-- Once validation passes, the handler always answers 200. -/
theorem packagesCollectionHandler_okStatus (baseUrl now originalUrl : String)
    (normalizeId : String → String) (qLimit qOffset qFilter qSort : Option String)
    (cache : List String) (optimizedFilter : String → List FilterPkg)
    (search : String → JsInt → JsInt → List SearchObj)
    (hnotle : (parseIntJS (orDefault qLimit "20")).leZero = false) :
    (packagesCollectionHandler baseUrl now "npmjs.org" originalUrl normalizeId qLimit
        qOffset qFilter qSort cache optimizedFilter search).status = 200 := by
  simp only [packagesCollectionHandler]
  rw [if_neg (by simp), if_neg (by simp [hnotle])]
  rfl

end Npm

open Npm in
/-- C7: on the packages collection, `limit` defaults to 20 and `offset` to 0
when absent, and any request whose limit parses to a value ≤ 0 (including
`limit=0`) is answered 400 with the RFC 9457 problem body built by
`createProblemDetails` — before any upstream search is issued
(`searchCalls = []`). -/
theorem limit_nonpositive_rejected
    (baseUrl now originalUrl : String) (normalizeId : String → String)
    (qLimit qOffset qFilter qSort : Option String)
    (cache : List String) (optimizedFilter : String → List FilterPkg)
    (search : String → JsInt → JsInt → List SearchObj)
    {L : Int} (hL : parseIntJS (orDefault qLimit "20") = .val L) (hle : L ≤ 0) :
    (packagesCollectionHandler baseUrl now "npmjs.org" originalUrl normalizeId qLimit
        qOffset qFilter qSort cache optimizedFilter search
      = { status := 400
          problem := some (createProblemDetails 400 "Invalid Request"
            (some "The limit parameter must be greater than 0") (some originalUrl))
          packages := [], link := none, searchCalls := [] })
    ∧ parseIntJS (orDefault none "20") = .val 20
    ∧ parseIntJS (orDefault none "0") = .val 0 := by
  refine ⟨?_, rfl, rfl⟩
  apply packagesCollectionHandler_badRequest
  rw [hL]
  simpa [JsInt.leZero] using hle

open Npm in
/-- Witness for C7: `limit=0` yields the 400 problem response. -/
theorem limit_nonpositive_rejected_witness :
    (packagesCollectionHandler "http://bridge" "now" "npmjs.org" "/u" id (some "0")
        none none none [] (fun _ => []) (fun _ _ _ => [])
      = { status := 400
          problem := some (createProblemDetails 400 "Invalid Request"
            (some "The limit parameter must be greater than 0") (some "/u"))
          packages := [], link := none, searchCalls := [] })
    ∧ parseIntJS (orDefault none "20") = .val 20
    ∧ parseIntJS (orDefault none "0") = .val 0 :=
  limit_nonpositive_rejected "http://bridge" "now" "/u" id (some "0") none none none []
    (fun _ => []) (fun _ _ _ => []) (L := 0) rfl (by omega)

open Npm in
/-- C10: a non-numeric `limit` such as `abc` is not rejected — `parseInt`
yields NaN, `NaN <= 0` is false, and the handler proceeds (status 200 with the
NaN limit); a request is answered 400 exactly when the limit parses to an
integer ≤ 0. -/
theorem nonnumeric_limit_not_rejected
    (baseUrl now originalUrl : String) (normalizeId : String → String)
    (qOffset qFilter qSort : Option String)
    (cache : List String) (optimizedFilter : String → List FilterPkg)
    (search : String → JsInt → JsInt → List SearchObj) :
    parseIntJS "abc" = .nan
    ∧ (packagesCollectionHandler baseUrl now "npmjs.org" originalUrl normalizeId
        (some "abc") qOffset qFilter qSort cache optimizedFilter search).status = 200
    ∧ ∀ qLimit : Option String,
        ((packagesCollectionHandler baseUrl now "npmjs.org" originalUrl normalizeId qLimit
            qOffset qFilter qSort cache optimizedFilter search).status = 400
          ↔ ∃ Lv : Int, parseIntJS (orDefault qLimit "20") = .val Lv ∧ Lv ≤ 0) := by
  refine ⟨rfl, ?_, ?_⟩
  · exact packagesCollectionHandler_okStatus baseUrl now originalUrl normalizeId
      (some "abc") qOffset qFilter qSort cache optimizedFilter search rfl
  · intro qLimit
    constructor
    · intro h400
      cases hp : parseIntJS (orDefault qLimit "20") with
      | nan =>
          have := packagesCollectionHandler_okStatus baseUrl now originalUrl normalizeId
            qLimit qOffset qFilter qSort cache optimizedFilter search
            (by rw [hp]; rfl)
          omega
      | val v =>
          by_cases hv : v ≤ 0
          · exact ⟨v, rfl, hv⟩
          · have := packagesCollectionHandler_okStatus baseUrl now originalUrl normalizeId
              qLimit qOffset qFilter qSort cache optimizedFilter search
              (by rw [hp]; simpa [JsInt.leZero] using hv)
            omega
    · rintro ⟨Lv, hp, hv⟩
      rw [packagesCollectionHandler_badRequest baseUrl now originalUrl normalizeId qLimit
        qOffset qFilter qSort cache optimizedFilter search
        (by rw [hp]; simpa [JsInt.leZero] using hv)]

namespace Npm

theorem length_packagesFilterBranch_le (baseUrl now : String)
    (normalizeId : String → String) (results : List FilterPkg) :
    (packagesFilterBranch baseUrl now normalizeId results).length ≤ results.length := by
  have h := length_foldl_le
    (fun acc pkg =>
      match effName pkg with
      | some nm => objUpsert acc nm (mkFilterEntry baseUrl now normalizeId nm pkg)
      | none => acc)
    (fun a x => by
      cases hx : effName x with
      | some nm => simpa [hx] using length_objUpsert_le a nm _
      | none => simp [hx])
    results []
  simpa [packagesFilterBranch] using h

theorem length_packagesSearchBranch_le (baseUrl now : String)
    (normalizeId : String → String) (objs : List SearchObj) :
    (packagesSearchBranch baseUrl now normalizeId objs).length ≤ objs.length := by
  have h := length_foldl_le
    (fun acc o =>
      match o.pkg with
      | some p =>
          match p.name with
          | some nm =>
              if nm ≠ "" then objUpsert acc nm (mkSearchEntry baseUrl now normalizeId nm p)
              else acc
          | none => acc
      | none => acc)
    (fun a x => by
      cases hx : x.pkg with
      | some p =>
          cases hn : p.name with
          | some nm =>
              by_cases hnm : nm = "" <;>
                simp [hx, hn, hnm, length_objUpsert_le]
          | none => simp [hx, hn]
      | none => simp [hx])
    objs []
  simpa [packagesSearchBranch] using h

theorem length_packagesSortBranch_le (baseUrl now : String)
    (normalizeId : String → String) (qSort : Option String) (cache : List String)
    {L : Int} (hL : 0 ≤ L) (off : JsInt) :
    (packagesSortBranch baseUrl now normalizeId qSort cache (.val L) off).length
      ≤ L.toNat := by
  simp only [packagesSortBranch]
  refine Nat.le_trans (by
    simpa using length_foldl_le
      (fun acc nm => objUpsert acc nm (mkSortEntry baseUrl now normalizeId nm))
      (fun a x => length_objUpsert_le a x _) _ []) ?_
  exact length_jsSlice_min_le _ off hL _

theorem length_fallbackNameSearch_le
    (search : String → JsInt → JsInt → List SearchObj) (B : Nat)
    (limit offset : JsInt)
    (hs : ∀ q off, (search q limit off).length ≤ B) :
    ∀ exprs : List FilterExpr,
      (fallbackNameSearch search exprs limit offset).1.length ≤ B
  | [] => by simp [fallbackNameSearch]
  | e :: rest => by
      by_cases hf : e.field = "name"
      · by_cases hq : String.mk (e.value.toList.filter (fun x => x ≠ '*')) ≠ ""
        · simp only [fallbackNameSearch, hf, if_true, if_pos hq]
          refine Nat.le_trans ?_
            (hs (String.mk (e.value.toList.filter (fun x => x ≠ '*'))) offset)
          simp only [List.length_map]
          exact List.length_filter_le _ _
        · simp only [fallbackNameSearch, hf, if_true, if_neg hq]
          exact length_fallbackNameSearch_le search B limit offset hs rest
      · simp only [fallbackNameSearch, if_neg hf]
        exact length_fallbackNameSearch_le search B limit offset hs rest

theorem length_handlePackageFilter_le (cacheLen : Nat)
    (optimizedFilter : String → List FilterPkg)
    (search : String → JsInt → JsInt → List SearchObj) (filter : String)
    {L : Int} (hL : 0 ≤ L) (off : JsInt)
    (hs : ∀ q o, (search q (.val L) o).length ≤ L.toNat) :
    (handlePackageFilter cacheLen optimizedFilter search filter (.val L) off).1.length
      ≤ L.toNat := by
  unfold handlePackageFilter
  split
  · exact length_jsSlice_le _ off hL
  · exact length_fallbackNameSearch_le search L.toNat (.val L) off hs _

/-- The branch selection never returns more than `limit` entries, provided the
upstream search honours its `size` argument. -/
theorem length_packagesBranchResult_le (baseUrl now : String)
    (normalizeId : String → String) (qLimit qOffset qFilter qSort : Option String)
    (cache : List String) (optimizedFilter : String → List FilterPkg)
    (search : String → JsInt → JsInt → List SearchObj)
    {L : Int} (hL : parseIntJS (orDefault qLimit "20") = .val L) (hLnn : 0 ≤ L)
    (hs : ∀ q o, (search q (.val L) o).length ≤ L.toNat) :
    (packagesBranchResult baseUrl now normalizeId qLimit qOffset qFilter qSort cache
      optimizedFilter search).1.length ≤ L.toNat := by
  simp only [packagesBranchResult, hL]
  split
  · exact Nat.le_trans (length_packagesFilterBranch_le _ _ _ _)
      (length_handlePackageFilter_le _ _ _ _ hLnn _ hs)
  · split
    · exact length_packagesSortBranch_le _ _ _ _ _ hLnn _
    · exact Nat.le_trans (length_packagesSearchBranch_le _ _ _ _) (hs _ _)

end Npm

open Npm in
/-- C6: every paginated packages response returns at most `limit` entries, and
the `Link: rel="next"` header is present exactly when the query carried a
(truthy) filter and the page is non-empty, or carried no filter and the page
is full. In particular a filter matching nothing gets an empty object and no
`Link` header. Requires the upstream search to honour its `size` argument. -/
theorem paginated_packages_link_policy
    (baseUrl now originalUrl : String) (normalizeId : String → String)
    (qLimit qOffset qFilter qSort : Option String)
    (cache : List String) (optimizedFilter : String → List FilterPkg)
    (search : String → JsInt → JsInt → List SearchObj)
    {L : Int} (hL : parseIntJS (orDefault qLimit "20") = .val L) (hLpos : 0 < L)
    (hs : ∀ q o, (search q (.val L) o).length ≤ L.toNat) :
    ((packagesCollectionHandler baseUrl now "npmjs.org" originalUrl normalizeId qLimit
        qOffset qFilter qSort cache optimizedFilter search).packages.length ≤ L.toNat)
    ∧ ((packagesCollectionHandler baseUrl now "npmjs.org" originalUrl normalizeId qLimit
        qOffset qFilter qSort cache optimizedFilter search).link.isSome ↔
        ((jsTruthy qFilter = true
            ∧ 0 < (packagesCollectionHandler baseUrl now "npmjs.org" originalUrl
                normalizeId qLimit qOffset qFilter qSort cache optimizedFilter
                search).packages.length)
          ∨ (jsTruthy qFilter = false
            ∧ (packagesCollectionHandler baseUrl now "npmjs.org" originalUrl normalizeId
                qLimit qOffset qFilter qSort cache optimizedFilter
                search).packages.length = L.toNat))) := by
  have hnotle : (parseIntJS (orDefault qLimit "20")).leZero = false := by
    rw [hL]
    simp [JsInt.leZero]
    omega
  have heq : packagesCollectionHandler baseUrl now "npmjs.org" originalUrl normalizeId
      qLimit qOffset qFilter qSort cache optimizedFilter search
      = packagesOkResult baseUrl now normalizeId qLimit qOffset qFilter qSort cache
        optimizedFilter search := by
    simp only [packagesCollectionHandler]
    rw [if_neg (by simp), if_neg (by simp [hnotle])]
  have hpack : (packagesOkResult baseUrl now normalizeId qLimit qOffset qFilter qSort
      cache optimizedFilter search).packages
      = (packagesBranchResult baseUrl now normalizeId qLimit qOffset qFilter qSort cache
        optimizedFilter search).1 := rfl
  have hbound := length_packagesBranchResult_le baseUrl now normalizeId qLimit qOffset
    qFilter qSort cache optimizedFilter search hL (by omega) hs
  have hlink : (packagesOkResult baseUrl now normalizeId qLimit qOffset qFilter qSort
      cache optimizedFilter search).link.isSome = true
      ↔ (if jsTruthy qFilter = true then
          0 < (packagesBranchResult baseUrl now normalizeId qLimit qOffset qFilter qSort
            cache optimizedFilter search).1.length
        else jsGe (packagesBranchResult baseUrl now normalizeId qLimit qOffset qFilter
            qSort cache optimizedFilter search).1.length
            (parseIntJS (orDefault qLimit "20")) = true) := by
    simp only [packagesOkResult]
    split <;> split <;> rename_i h2
    · simp only [Option.isSome_some, true_iff]
      exact h2
    · simp only [Option.isSome_none, Bool.false_eq_true, false_iff]
      exact h2
    · simp only [Option.isSome_some, true_iff]
      exact h2
    · simp only [Option.isSome_none, Bool.false_eq_true, false_iff]
      exact h2
  rw [heq]
  constructor
  · rw [hpack]
    exact hbound
  · rw [hpack, show ((packagesOkResult baseUrl now normalizeId qLimit qOffset qFilter
      qSort cache optimizedFilter search).link.isSome)
      = ((packagesOkResult baseUrl now normalizeId qLimit qOffset qFilter qSort cache
        optimizedFilter search).link.isSome = true) from (by simp), hlink]
    by_cases hf : jsTruthy qFilter = true
    · rw [if_pos hf, hf]
      by_cases hn : 0 < (packagesBranchResult baseUrl now normalizeId qLimit qOffset
          qFilter qSort cache optimizedFilter search).1.length
      · simp [hn]
      · simp [hn]
    · have hf' : jsTruthy qFilter = false := by
        cases h : jsTruthy qFilter
        · rfl
        · exact absurd h hf
      rw [if_neg hf, hf', hL]
      constructor
      · intro hg
        refine Or.inr ⟨rfl, ?_⟩
        simp only [jsGe, decide_eq_true_eq, ge_iff_le] at hg
        omega
      · rintro (⟨hff, _⟩ | ⟨_, hn⟩)
        · simp at hff
        · simp only [jsGe, decide_eq_true_eq, ge_iff_le]
          omega

open Npm in
/-- Witness for C6: an unfiltered request with `limit=2` against an empty
cache and an upstream returning nothing — zero entries, no `Link` header. -/
theorem paginated_packages_link_policy_witness :
    ((packagesCollectionHandler "http://bridge" "now" "npmjs.org" "/u" id (some "2")
        none none none [] (fun _ => []) (fun _ _ _ => [])).packages.length
      ≤ (Int.toNat 2))
    ∧ ((packagesCollectionHandler "http://bridge" "now" "npmjs.org" "/u" id (some "2")
        none none none [] (fun _ => []) (fun _ _ _ => [])).link.isSome ↔
        ((jsTruthy none = true
            ∧ 0 < (packagesCollectionHandler "http://bridge" "now" "npmjs.org" "/u" id
                (some "2") none none none [] (fun _ => [])
                (fun _ _ _ => [])).packages.length)
          ∨ (jsTruthy none = false
            ∧ (packagesCollectionHandler "http://bridge" "now" "npmjs.org" "/u" id
                (some "2") none none none [] (fun _ => [])
                (fun _ _ _ => [])).packages.length = (Int.toNat 2)))) :=
  paginated_packages_link_policy "http://bridge" "now" "/u" id (some "2") none none none
    [] (fun _ => []) (fun _ _ _ => []) (L := 2) rfl (by omega)
    (fun q o => by simp)

/-! ## Method policy (npm server.ts 803-820; pypi server.ts 184-196) -/

namespace Npm

/-- HTTP request methods. -/
inductive Method where
  | GET | HEAD | OPTIONS | PUT | POST | PATCH | DELETE
  deriving DecidableEq, Repr

/-- `req.method.toUpperCase()` as interpolated into the problem bodies. -/
def Method.render : Method → String
  | .GET => "GET"
  | .HEAD => "HEAD"
  | .OPTIONS => "OPTIONS"
  | .PUT => "PUT"
  | .POST => "POST"
  | .PATCH => "PATCH"
  | .DELETE => "DELETE"

/-- `['PUT', 'PATCH', 'POST', 'DELETE'].includes(method)`. -/
def isWriteMethod : Method → Bool
  | .PUT | .PATCH | .POST | .DELETE => true
  | _ => false

/-- The npm facade's write-method catch-all (server.ts 803-820), composed with
the fact that every route registered before it uses `app.get` and therefore
matches only GET/HEAD requests: a write-method request on any path reaches the
catch-all. `st` is the handler-visible state (entity store, caches); `rest` is
the rest of the app (pass-through for GET/HEAD/OPTIONS). -/
def npmDispatch {σ : Type} (m : Method) (originalUrl : String) (st : σ)
    (rest : σ → (Nat × ProblemDetails) × σ) : (Nat × ProblemDetails) × σ :=
  if isWriteMethod m then
    ((405, createProblemDetails 405 "Method Not Allowed"
      ("This registry is read-only. " ++ m.render ++ " operations are not supported.")
      (some originalUrl)), st)
  else rest st

end Npm

namespace Pypi

open Npm (Method isWriteMethod ProblemDetails)

/-- The pypi facade's 405 catch-all middleware (pypi server.ts 184-196): the
routers mounted before it expose only GET routes (spec §4.C), so a
write-method request on any path reaches it. The body is the inline object of
the source; `detail` does not mention read-only. -/
def pypiDispatch {σ : Type} (m : Npm.Method) (path : String) (st : σ)
    (rest : σ → (Nat × Npm.ProblemDetails) × σ) : (Nat × Npm.ProblemDetails) × σ :=
  if Npm.isWriteMethod m then
    ((405, { type := "about:blank", title := "Method Not Allowed", status := 405
             detail := some (m.render ++ " method not supported on " ++ path)
             inst := some path }), st)
  else rest st

end Pypi

open Npm in
/-- C8 counterexample: the pypi facade answers a `PUT /health` with 405 and
title "Method Not Allowed", but its `detail` — "PUT method not supported on
/health" — does not state that the registry is read-only. -/
theorem pypi_405_detail_lacks_read_only :
    ((Pypi.pypiDispatch Method.PUT "/health" (0 : Nat)
        (fun s => ((200, createProblemDetails 200 "" none none), s))).1.1 = 405)
    ∧ ¬ ("read-only".toList <:+: ((Pypi.pypiDispatch Method.PUT "/health" (0 : Nat)
        (fun s => ((200, createProblemDetails 200 "" none none), s))).1.2.detail.getD
          "").toList) := by
  refine ⟨rfl, by decide⟩

open Npm in
/-- C8 amended: every PUT/POST/PATCH/DELETE request, on any path, is answered
405 with an RFC 9457 problem body titled "Method Not Allowed" and the
handler-visible state unchanged, on both facades; the npm facade's detail
states the registry is read-only, while the pypi facade's detail is
"<METHOD> method not supported on <path>" and does not mention read-only. -/
theorem write_methods_rejected_405 {σ : Type} (m : Method) (originalUrl path : String)
    (st : σ) (rest : σ → (Nat × ProblemDetails) × σ)
    (hw : isWriteMethod m = true) :
    ((npmDispatch m originalUrl st rest).1.1 = 405
      ∧ (npmDispatch m originalUrl st rest).1.2.title = "Method Not Allowed"
      ∧ (npmDispatch m originalUrl st rest).1.2.detail
          = some ("This registry is read-only. " ++ m.render
            ++ " operations are not supported.")
      ∧ ("read-only".toList
          <:+: ((npmDispatch m originalUrl st rest).1.2.detail.getD "").toList)
      ∧ (npmDispatch m originalUrl st rest).2 = st)
    ∧ ((Pypi.pypiDispatch m path st rest).1.1 = 405
      ∧ (Pypi.pypiDispatch m path st rest).1.2.title = "Method Not Allowed"
      ∧ (Pypi.pypiDispatch m path st rest).1.2.detail
          = some (m.render ++ " method not supported on " ++ path)
      ∧ (Pypi.pypiDispatch m path st rest).2 = st) := by
  cases m <;> simp_all [npmDispatch, Pypi.pypiDispatch, isWriteMethod,
    createProblemDetails, Method.render] <;> decide

open Npm in
/-- Witness for the amended C8 at `POST /noderegistries/npmjs.org/packages`. -/
theorem write_methods_rejected_405_witness :
    ((npmDispatch Method.POST "/noderegistries/npmjs.org/packages" (7 : Nat)
        (fun s => ((200, createProblemDetails 200 "" none none), s))).1.1 = 405
      ∧ (npmDispatch Method.POST "/noderegistries/npmjs.org/packages" (7 : Nat)
        (fun s => ((200, createProblemDetails 200 "" none none), s))).1.2.title
          = "Method Not Allowed"
      ∧ (npmDispatch Method.POST "/noderegistries/npmjs.org/packages" (7 : Nat)
        (fun s => ((200, createProblemDetails 200 "" none none), s))).1.2.detail
          = some ("This registry is read-only. " ++ Method.POST.render
            ++ " operations are not supported.")
      ∧ ("read-only".toList
          <:+: ((npmDispatch Method.POST "/noderegistries/npmjs.org/packages" (7 : Nat)
            (fun s => ((200, createProblemDetails 200 "" none none),
              s))).1.2.detail.getD "").toList)
      ∧ (npmDispatch Method.POST "/noderegistries/npmjs.org/packages" (7 : Nat)
        (fun s => ((200, createProblemDetails 200 "" none none), s))).2 = 7)
    ∧ ((Pypi.pypiDispatch Method.POST "/simple" (7 : Nat)
        (fun s => ((200, createProblemDetails 200 "" none none), s))).1.1 = 405
      ∧ (Pypi.pypiDispatch Method.POST "/simple" (7 : Nat)
        (fun s => ((200, createProblemDetails 200 "" none none), s))).1.2.title
          = "Method Not Allowed"
      ∧ (Pypi.pypiDispatch Method.POST "/simple" (7 : Nat)
        (fun s => ((200, createProblemDetails 200 "" none none), s))).1.2.detail
          = some (Method.POST.render ++ " method not supported on " ++ "/simple")
      ∧ (Pypi.pypiDispatch Method.POST "/simple" (7 : Nat)
        (fun s => ((200, createProblemDetails 200 "" none none), s))).2 = 7) :=
  write_methods_rejected_405 Method.POST "/noderegistries/npmjs.org/packages" "/simple"
    (7 : Nat) (fun s => ((200, createProblemDetails 200 "" none none), s)) rfl

end XRProxy
